import Mathlib

/-!
# Asset inventory collector and agent (`src/main.cpp`)

A shallow embedding of the hand-built HTTP layer, the line-oriented record
store and the agent retry loop of `main.cpp`, followed by theorems about them.

Conventions of the embedding:

* a `std::string` is a `List Char` (one `Char` per byte);
* the store file is the `List Char` of its contents; a missing file reads as
  the empty content, and opening the file is assumed to succeed;
* a connection is the list of chunks that successive `recv` calls deliver;
  when the list is exhausted `recv` returns `n <= 0` (peer closed);
* `send_all` is assumed to deliver the bytes it is given.
-/

set_option maxRecDepth 100000

namespace AssetInventory

/-! ## String primitives -/

/-- The `std::string::find(pat)` search: index of the first occurrence of `pat`
in `s`, `none` standing for `npos`. -/
def find (s pat : List Char) : Option Nat :=
  if pat.isPrefixOf s then some 0
  else match s with
    | [] => none
    | _ :: t => (find t pat).map (· + 1)

/-- The `std::string::find(pat, pos)` search: first occurrence at or after `pos`. -/
def find_from (s pat : List Char) (pos : Nat) : Option Nat :=
  (find (s.drop pos) pat).map (· + pos)

/-- The `std::string::find_first_of(set, pos)` search: index of the first
character at or after `pos` that belongs to `set`. -/
def find_first_of (s set : List Char) (pos : Nat) : Option Nat :=
  let t := s.drop pos
  if (t.dropWhile (fun c => !set.contains c)).isEmpty then none
  else some (pos + (t.takeWhile (fun c => !set.contains c)).length)

/-- The `std::string::substr(pos, n)` slice, for `pos <= size`. -/
def substr (s : List Char) (pos n : Nat) : List Char := (s.drop pos).take n

/-- The `std::isspace` test in the "C" locale. -/
def isspace (c : Char) : Bool :=
  c == ' ' || c == '\t' || c == '\n' || c == '\x0b' || c == '\x0c' || c == '\r'

/-- The `std::tolower` map in the "C" locale. -/
def tolower (c : Char) : Char :=
  if 'A' ≤ c ∧ c ≤ 'Z' then Char.ofNat (c.toNat + 32) else c

/-- The lines that `while (std::getline(in, line))` yields on the content
`rest`, when the line under extraction already holds `cur`: a newline ends
the line (and is dropped); at end of input a non-empty `cur` is a last line and
an empty one makes `getline` fail. -/
def getlines_aux : List Char → List Char → List (List Char)
  | [], cur => if cur.isEmpty then [] else [cur]
  | c :: rest, cur =>
    if c = '\n' then cur :: getlines_aux rest [] else getlines_aux rest (cur ++ [c])

/-- All lines of a content, as read by a `std::getline` loop. -/
def getlines (s : List Char) : List (List Char) := getlines_aux s []

/-- The `operator>>` extraction of one token from a stream holding `s`: skip
leading white space, take the characters up to the next white space. The
result is the token and the rest of the stream. -/
def extract_token (s : List Char) : List Char × List Char :=
  let s1 := s.dropWhile isspace
  (s1.takeWhile (fun c => !isspace c), s1.dropWhile (fun c => !isspace c))

/-- The value of a decimal digit string, most significant digit first. -/
def digits_value (ds : List Char) : Nat :=
  ds.foldl (fun a d => 10 * a + (d.toNat - 48)) 0

/-- The `std::atoll` conversion: leading white space, an optional sign, then
decimal digits; anything from the first other character on is ignored. Values
outside `long long` saturate, as `strtoll` does. -/
def atoll (s : List Char) : Int :=
  let s1 := s.dropWhile isspace
  let neg := s1.head? == some '-'
  let s2 := if s1.head? == some '-' || s1.head? == some '+' then s1.drop 1 else s1
  let v : Int := digits_value (s2.takeWhile Char.isDigit)
  let r := if neg then -v else v
  if r < -(2 ^ 63) then -(2 ^ 63) else if 2 ^ 63 - 1 < r then 2 ^ 63 - 1 else r

/-- Decimal text of an `int`, as `operator<<` writes it. -/
def int_to_string (i : Int) : List Char :=
  if i < 0 then '-' :: (Nat.repr i.natAbs).toList else (Nat.repr i.toNat).toList

/-! ## Tiny JSON build and schema check -/

/-- The `json_escape` function. -/
def json_escape : List Char → List Char
  | [] => []
  | ch :: s =>
    (if ch = '\\' then ['\\', '\\']
     else if ch = '"' then ['\\', '"']
     else if ch = '\n' then ['\\', 'n']
     else if ch = '\r' then ['\\', 'r']
     else if ch = '\t' then ['\\', 't']
     else [ch]) ++ json_escape s

/-- The `has` lambda of `json_has_required_keys`: does the body contain the
key between double quotes. -/
def has (body k : List Char) : Bool :=
  (find body ('"' :: k ++ ['"'])).isSome

/-- The `json_has_required_keys` function. The result is the returned flag and
the content of `*why` afterwards, `why` being its content before the call. -/
def json_has_required_keys (body why : List Char) : Bool × List Char :=
  if body.length < 2 || body.head? != some '\x7b' || body.getLast? != some '\x7d' then
    (false, "Body is not a JSON object.".toList)
  else if !has body "hostname".toList then
    (false, "Missing required key: ".toList ++ "hostname".toList)
  else if !has body "os".toList then
    (false, "Missing required key: ".toList ++ "os".toList)
  else if !has body "timestamp".toList then
    (false, "Missing required key: ".toList ++ "timestamp".toList)
  else (true, why)

/-- The `build_asset_json` function. The host name, OS name, core count, RAM
size (negative when unknown) and time stamp come from the system-fact
collectors and are parameters here. -/
def build_asset_json (id ip_guess hostname os : List Char) (cores : Nat) (ram_mb : Int)
    (ts : List Char) : List Char :=
  "\x7b".toList
  ++ "\"id\":\"".toList ++ json_escape id ++ "\",".toList
  ++ "\"hostname\":\"".toList ++ json_escape hostname ++ "\",".toList
  ++ "\"os\":\"".toList ++ json_escape os ++ "\",".toList
  ++ "\"cpu_cores\":".toList ++ (Nat.repr cores).toList ++ ",".toList
  ++ (if 0 ≤ ram_mb then "\"ram_mb\":".toList ++ int_to_string ram_mb ++ ",".toList
      else "\"ram_mb\":\"N/A\",".toList)
  ++ "\"ip\":\"".toList
  ++ json_escape (if ip_guess.isEmpty then "N/A".toList else ip_guess) ++ "\",".toList
  ++ "\"timestamp\":\"".toList ++ json_escape ts ++ "\"".toList
  ++ "\x7d".toList

/-! ## HTTP codec -/

/-- The reason phrase table of `http_response`. -/
def reason_phrase (code : Int) : List Char :=
  if code = 200 then "OK".toList
  else if code = 201 then "Created".toList
  else if code = 400 then "Bad Request".toList
  else if code = 404 then "Not Found".toList
  else "Error".toList

/-- The `http_response` function: the wire bytes of a response. -/
def http_response (code : Int) (content_type body : List Char) : List Char :=
  "HTTP/1.1 ".toList ++ int_to_string code ++ " ".toList ++ reason_phrase code ++ "\r\n".toList
  ++ "Content-Type: ".toList ++ content_type ++ "\r\n".toList
  ++ "Content-Length: ".toList ++ (Nat.repr body.length).toList ++ "\r\n".toList
  ++ "Connection: close\r\n\r\n".toList
  ++ body

/-- The request bytes that `http_post_json` sends. -/
def http_request (host : List Char) (port : Int) (path json_body : List Char) : List Char :=
  "POST ".toList ++ path ++ " HTTP/1.1\r\n".toList
  ++ "Host: ".toList ++ host ++ ":".toList ++ int_to_string port ++ "\r\n".toList
  ++ "Content-Type: application/json\r\n".toList
  ++ "Content-Length: ".toList ++ (Nat.repr json_body.length).toList ++ "\r\n".toList
  ++ "Connection: close\r\n\r\n".toList
  ++ json_body

/-- The `std::atoi` conversion: `strtol`, which saturates at the bounds of a 64-bit
`long`, followed by the conversion to `int`, which keeps the low 32 bits. -/
def atoi (s : List Char) : Int :=
  (atoll s + 2 ^ 31) % 2 ^ 32 - 2 ^ 31

/-- The status decoding at the end of `http_post_json`: `code` stays 0 unless the
response starts with `HTTP/`, has a space at `sp` and more than `sp + 4` bytes, in
which case it is `atoi` of the text after that space. -/
def decode_status (resp : List Char) : Int :=
  if "HTTP/".toList.isPrefixOf resp then
    match find resp [' '] with
    | none => 0
    | some sp => if sp + 4 < resp.length then atoi (resp.drop (sp + 1)) else 0
  else 0

/-- The `read_until` function: `data` grows by the chunks `recv` delivers until
it contains `delim`, reaches `max_bytes`, or the peer closes. The result is the
returned flag, `data` afterwards, and the chunks not yet consumed. -/
def read_until : List (List Char) → List Char → List Char → Nat →
    Bool × List Char × List (List Char)
  | [], data, delim, max_bytes =>
    if data.length < max_bytes then
      if (find data delim).isSome then (true, data, []) else (false, data, [])
    else (false, data, [])
  | c :: rest, data, delim, max_bytes =>
    if data.length < max_bytes then
      if (find data delim).isSome then (true, data, c :: rest)
      else if c.length = 0 then (false, data, rest)
      else read_until rest (data ++ c) delim max_bytes
    else (false, data, c :: rest)

/-- The removal of a trailing carriage return from a header line:
`if (!hline.empty() && hline.back() == '\r') hline.pop_back();`. -/
def strip_cr (hline : List Char) : List Char :=
  if hline.getLast? = some '\r' then hline.dropLast else hline

/-- The body of the header scan loop of `server_loop` on one line: the line, with a
trailing carriage return removed, is compared in lower case with the prefix
`content-length:`; a matching line overwrites `content_len` with `atoll` of what
follows its first 15 characters. -/
def content_length_step (content_len : Int) (hline0 : List Char) : Int :=
  let hline := strip_cr hline0
  let lower := hline.map tolower
  if "content-length:".toList.isPrefixOf lower then
    atoll (hline.drop "Content-Length:".toList.length)
  else content_len

/-- The header scan of `server_loop` for `Content-Length`: the loop runs over every
line of the header block (the request line included), from `content_len = 0`. -/
def content_length (headers : List Char) : Int :=
  (getlines headers).foldl content_length_step 0

/-- The body accumulation loop of `server_loop`: while the body is shorter than
`content_len`, append the next chunk; a `recv` result `n <= 0` leaves the loop. -/
def read_body : List (List Char) → List Char → Int → List Char
  | [], body, _ => body
  | c :: rest, body, content_len =>
    if (body.length : Int) < content_len then
      if c.length = 0 then body else read_body rest (body ++ c) content_len
    else body

/-! ## Record store projections -/

/-- The array view built by the `GET /api/assets` route: the non-empty lines of
the store, separated by commas, between brackets. The fold state is the output
so far and the `first` flag. -/
def assets_json (store : List Char) : List Char :=
  ((getlines store).foldl
    (fun (st : List Char × Bool) line =>
      if line.isEmpty then st
      else ((if st.2 then st.1 else st.1 ++ ",".toList) ++ line, false))
    ("[".toList, true)).1 ++ "]".toList

/-- The `pick` lambda of the CSV route: the text of the value that follows the
first `"key":` marker of `json`, either up to the closing quote or up to the
next comma or closing brace. -/
def pick (json key : List Char) : List Char :=
  let k := "\"".toList ++ key ++ "\":".toList
  match find json k with
  | none => []
  | some p =>
    let pos0 := p + k.length
    let pos := pos0 + ((json.drop pos0).takeWhile (fun c => c == ' ')).length
    if json.get? pos = some '"' then
      match find_from json ['"'] (pos + 1) with
      | none => []
      | some e => substr json (pos + 1) (e - (pos + 1))
    else
      match find_first_of json [',', '\x7d'] pos with
      | none => substr json pos (json.length - pos)
      | some e => substr json pos (e - pos)

/-- The header row of the CSV export, without its newline. -/
def csv_header : List Char := "id,hostname,os,cpu_cores,ram_mb,ip,timestamp".toList

/-- One row of the CSV export, without its newline. -/
def csv_row (line : List Char) : List Char :=
  pick line "id".toList ++ ",".toList
  ++ pick line "hostname".toList ++ ",".toList
  ++ pick line "os".toList ++ ",".toList
  ++ pick line "cpu_cores".toList ++ ",".toList
  ++ pick line "ram_mb".toList ++ ",".toList
  ++ pick line "ip".toList ++ ",".toList
  ++ pick line "timestamp".toList

/-- The CSV text built by the `GET /api/export.csv` route. -/
def export_csv (store : List Char) : List Char :=
  (getlines store).foldl
    (fun csv line => if line.isEmpty then csv else csv ++ csv_row line ++ "\n".toList)
    (csv_header ++ "\n".toList)

/-! ## Request router and server loop -/

/-- A response before serialisation: the arguments of `http_response`. -/
structure Response where
  code : Int
  content_type : List Char
  body : List Char
deriving DecidableEq, Repr

/-- The route chain of `server_loop`: the response to a request and the store
content afterwards. `html` is the dashboard page. -/
def route (html store method path body : List Char) : Response × List Char :=
  if method = "GET".toList ∧ (path = "/".toList ∨ path = "/index.html".toList) then
    (⟨200, "text/html; charset=utf-8".toList, html⟩, store)
  else if method = "GET".toList ∧ path = "/api/assets".toList then
    (⟨200, "application/json; charset=utf-8".toList, assets_json store⟩, store)
  else if method = "GET".toList ∧ path = "/api/export.csv".toList then
    (⟨200, "text/csv; charset=utf-8".toList, export_csv store⟩, store)
  else if method = "POST".toList ∧ path = "/api/assets".toList then
    if !(json_has_required_keys body []).1 then
      (⟨400, "application/json; charset=utf-8".toList,
        "\x7b\"error\":\"".toList ++ json_escape (json_has_required_keys body []).2
          ++ "\"\x7d".toList⟩, store)
    else
      (⟨201, "application/json; charset=utf-8".toList, "\x7b\"ok\":true\x7d".toList⟩,
        store ++ body ++ "\n".toList)
  else
    (⟨404, "application/json; charset=utf-8".toList,
      "\x7b\"error\":\"not found\"\x7d".toList⟩, store)

/-- One iteration of the accept loop of `server_loop` on a connection that
delivers `chunks`: the bytes sent on the connection (`none` when it is closed
without a response) and the store content afterwards. -/
def serve_one (html store : List Char) (chunks : List (List Char)) :
    Option (List Char) × List Char :=
  match read_until chunks [] "\r\n\r\n".toList (2 ^ 20) with
  | (false, _, _) => (none, store)
  | (true, data, rest) =>
    let req_line := match find data "\r\n".toList with
      | none => data
      | some line_end => substr data 0 line_end
    let method := (extract_token req_line).1
    let path := (extract_token (extract_token req_line).2).1
    match find data "\r\n\r\n".toList with
    | none => (none, store)
    | some hdr_end =>
      let headers := substr data 0 hdr_end
      let body0 := data.drop (hdr_end + 4)
      let content_len := content_length headers
      let body := read_body rest body0 content_len
      let r := route html store method path body
      (some (http_response r.1.code r.1.content_type r.1.body), r.2)

/-! ## Agent retry loop -/

/-- What the retry loop of `main` does, in order. -/
inductive Event where
  | attempt : Event
  | sleep (ms : Int) : Event
deriving DecidableEq, Repr

/-- The values that a 32-bit `int` holds. -/
def in_int_range (v : Int) : Bool :=
  decide (-(2 ^ 31) ≤ v) && decide (v ≤ 2 ^ 31 - 1)

/-- The retry loop of the agent in `main`. `post k` is the code that the call
number `k` (from 0) of `http_post_json` returns; `attempt` is the loop counter.
The result is the exit code and the attempts and sleeps made, in order. `attempt`
and `backoff_ms` are 32-bit `int`s in the source: where `attempt++` or
`500 * attempt` leaves the range of `int` the run has a signed overflow, which C++
leaves undefined, and the result is `none`. -/
def retry_loop (post : Nat → Int) (retries : Int) (attempt : Int) (calls : Nat) :
    Option (Int × List Event) :=
  if attempt ≤ retries then
    let code := post calls
    if code = 201 ∨ code = 200 then some (0, [Event.attempt])
    else if in_int_range (attempt + 1) = false then none
    else if attempt + 1 > retries then some (1, [Event.attempt])
    else if in_int_range (500 * (attempt + 1)) = false then none
    else
      match retry_loop post retries (attempt + 1) (calls + 1) with
      | none => none
      | some r => some (r.1, Event.attempt :: Event.sleep (500 * (attempt + 1)) :: r.2)
  else some (1, [])
termination_by (retries + 1 - attempt).toNat
decreasing_by omega

/-- The agent's retry loop from its initial state `attempt = 0`. -/
def agent_send (post : Nat → Int) (retries : Int) : Option (Int × List Event) :=
  retry_loop post retries 0 0

/-! ## Predicates used to state the properties -/

/-- A body that starts with an opening brace and ends with a closing brace. -/
def BraceDelimited (body : List Char) : Prop :=
  body.head? = some '\x7b' ∧ body.getLast? = some '\x7d'

/-- The body contains the key `k` between double quotes, as a substring. -/
def ContainsKey (body k : List Char) : Prop :=
  ("\"".toList ++ k ++ "\"".toList) <:+: body

/-- A store content that is empty or ends with a newline. -/
def NewlineTerminated (store : List Char) : Prop :=
  store = [] ∨ store.getLast? = some '\n'

/-- The store after the bodies are posted in order to `POST /api/assets`. -/
def post_all (html store : List Char) (bodies : List (List Char)) : List Char :=
  bodies.foldl (fun st b => (route html st "POST".toList "/api/assets".toList b).2) store

/-- The attempts and sleeps of a run whose first `n` attempts fail and are retried,
when the loop counter starts at `a`: attempt, sleep `500 * (a + 1)`, attempt, ...,
sleep `500 * (a + n)`, attempt. -/
def expected_trace : Nat → Int → List Event
  | 0, _ => [Event.attempt]
  | n + 1, a => Event.attempt :: Event.sleep (500 * (a + 1)) :: expected_trace n (a + 1)

/-- The sleeps of a run, in order. -/
def delays : List Event → List Int
  | [] => []
  | Event.attempt :: es => delays es
  | Event.sleep ms :: es => ms :: delays es

/-- The number of attempts of a run. -/
def attempts : List Event → Nat
  | [] => 0
  | Event.attempt :: es => attempts es + 1
  | Event.sleep _ :: es => attempts es

/-- The record of the example scenario of the specification. -/
def example_record : List Char :=
  ("\x7b\"id\":\"a1\",\"hostname\":\"h\",\"os\":\"Linux\",\"cpu_cores\":4,\"ram_mb\":8192,"
    ++ "\"ip\":\"10.0.0.5\",\"timestamp\":\"2024-01-01T00:00:00\"\x7d").toList

/-- A header line whose name, colon included, is `content-length:` in some letter
case: after the removal of a trailing carriage return the line is a name followed
by a value, and the name in lower case is `content-length:`. -/
def IsContentLengthLine (hline : List Char) : Prop :=
  ∃ name value, strip_cr hline = name ++ value ∧ name.map tolower = "content-length:".toList

/-- The value text of a header line: what follows the 15 characters of the name. -/
def header_value (hline : List Char) : List Char := (strip_cr hline).drop 15

/-! ## Substring search -/

theorem find_nil (pat : List Char) : find [] pat = if pat.isPrefixOf [] then some 0 else none := by
  unfold find; split <;> rfl

theorem find_cons (a : Char) (t pat : List Char) :
    find (a :: t) pat = if pat.isPrefixOf (a :: t) then some 0 else (find t pat).map (· + 1) := by
  rw [find]

theorem find_isSome_iff (s pat : List Char) : (find s pat).isSome = true ↔ pat <:+: s := by
  induction s with
  | nil =>
    rw [find_nil]
    cases pat with
    | nil => simp
    | cons p ps => simp
  | cons a t ih =>
    rw [find_cons, List.infix_cons_iff, ← ih, ← List.isPrefixOf_iff_prefix]
    by_cases h : pat.isPrefixOf (a :: t) = true
    · simp [h]
    · simp [h]

theorem has_iff (body k : List Char) : has body k = true ↔ ContainsKey body k := by
  unfold has ContainsKey
  rw [find_isSome_iff]
  rfl

theorem length_ge_two_of_brace (body : List Char) (h : BraceDelimited body) : 2 ≤ body.length := by
  obtain ⟨h1, h2⟩ := h
  match body, h1, h2 with
  | [c], h1, h2 =>
    simp at h1 h2
    rw [h1] at h2
    exact absurd h2 (by decide)
  | _ :: _ :: _, _, _ => simp

theorem not_brace_iff (body : List Char) :
    (body.length < 2 || body.head? != some '\x7b' || body.getLast? != some '\x7d') = true
      ↔ ¬ BraceDelimited body := by
  constructor
  · intro h hb
    have := length_ge_two_of_brace body hb
    obtain ⟨h1, h2⟩ := hb
    simp [h1, h2] at h
    omega
  · intro h
    by_contra hc
    apply h
    simp at hc
    exact ⟨hc.1.2, hc.2⟩

/-! ## Lines of a content -/

theorem getlines_aux_nil (cur : List Char) :
    getlines_aux [] cur = if cur.isEmpty then [] else [cur] := rfl

theorem getlines_aux_cons (c : Char) (rest cur : List Char) :
    getlines_aux (c :: rest) cur
      = if c = '\n' then cur :: getlines_aux rest [] else getlines_aux rest (cur ++ [c]) := rfl

theorem getlines_aux_append_newline (l : List Char) (hl : '\n' ∉ l) :
    ∀ (cur rest : List Char),
      getlines_aux (l ++ '\n' :: rest) cur = (cur ++ l) :: getlines_aux rest [] := by
  induction l with
  | nil => intro cur rest; simp [getlines_aux]
  | cons c l ih =>
    intro cur rest
    have hc : c ≠ '\n' := fun h => hl (by simp [h])
    have hl2 : '\n' ∉ l := fun h => hl (by simp [h])
    rw [List.cons_append, getlines_aux_cons, if_neg hc, ih hl2]
    simp

theorem getlines_aux_append_terminated (s : List Char) :
    ∀ (cur t : List Char),
      getlines_aux (s ++ '\n' :: t) cur = getlines_aux (s ++ ['\n']) cur ++ getlines_aux t [] := by
  induction s with
  | nil => intro cur t; simp [getlines_aux]
  | cons c s ih =>
    intro cur t
    by_cases hc : c = '\n'
    · rw [List.cons_append, List.cons_append, getlines_aux_cons, getlines_aux_cons,
        if_pos hc, if_pos hc, ih]
      simp
    · rw [List.cons_append, List.cons_append, getlines_aux_cons, getlines_aux_cons,
        if_neg hc, if_neg hc, ih]

theorem getlines_append (store t : List Char) (h : NewlineTerminated store) :
    getlines (store ++ t) = getlines store ++ getlines t := by
  rcases h with h | h
  · subst h; simp [getlines, getlines_aux]
  · obtain ⟨s, rfl⟩ := List.getLast?_eq_some_iff.1 h
    unfold getlines
    rw [List.append_assoc]
    exact getlines_aux_append_terminated s [] t

theorem getlines_line (l : List Char) (hl : '\n' ∉ l) : getlines (l ++ ['\n']) = [l] := by
  unfold getlines
  rw [getlines_aux_append_newline l hl]
  simp [getlines_aux]

theorem mem_getlines_aux (s : List Char) :
    ∀ (cur l : List Char), '\n' ∉ cur → l ∈ getlines_aux s cur → '\n' ∉ l := by
  induction s with
  | nil =>
    intro cur l hcur hl
    rw [getlines_aux_nil] at hl
    split at hl
    · simp at hl
    · simp at hl; rw [hl]; exact hcur
  | cons c s ih =>
    intro cur l hcur hl
    rw [getlines_aux_cons] at hl
    split at hl
    · rcases List.mem_cons.1 hl with h | h
      · rw [h]; exact hcur
      · exact ih [] l (by simp) h
    · rename_i hc
      exact ih (cur ++ [c]) l (by simp [hcur]; exact fun h => hc h.symm) hl

theorem mem_getlines (s l : List Char) (h : l ∈ getlines s) : '\n' ∉ l :=
  mem_getlines_aux s [] l (by simp) h

/-! ## The required-key check -/

/-- The five ways through `json_has_required_keys`, each with its result. -/
theorem json_has_required_keys_cases (body why : List Char) :
    (¬ BraceDelimited body
      ∧ json_has_required_keys body why = (false, "Body is not a JSON object.".toList))
    ∨ (BraceDelimited body ∧ ¬ ContainsKey body "hostname".toList
      ∧ json_has_required_keys body why = (false, "Missing required key: hostname".toList))
    ∨ (BraceDelimited body ∧ ContainsKey body "hostname".toList
      ∧ ¬ ContainsKey body "os".toList
      ∧ json_has_required_keys body why = (false, "Missing required key: os".toList))
    ∨ (BraceDelimited body ∧ ContainsKey body "hostname".toList
      ∧ ContainsKey body "os".toList ∧ ¬ ContainsKey body "timestamp".toList
      ∧ json_has_required_keys body why = (false, "Missing required key: timestamp".toList))
    ∨ (BraceDelimited body ∧ ContainsKey body "hostname".toList
      ∧ ContainsKey body "os".toList ∧ ContainsKey body "timestamp".toList
      ∧ json_has_required_keys body why = (true, why)) := by
  unfold json_has_required_keys
  by_cases hb : BraceDelimited body
  · have hb2 : ¬ ((body.length < 2 || body.head? != some '\x7b'
        || body.getLast? != some '\x7d') = true) := by
      rw [not_brace_iff]; exact fun h => h hb
    rw [if_neg hb2]
    by_cases h1 : ContainsKey body "hostname".toList
    · have e1 : has body "hostname".toList = true := (has_iff _ _).2 h1
      by_cases h2 : ContainsKey body "os".toList
      · have e2 : has body "os".toList = true := (has_iff _ _).2 h2
        by_cases h3 : ContainsKey body "timestamp".toList
        · have e3 : has body "timestamp".toList = true := (has_iff _ _).2 h3
          right; right; right; right
          refine ⟨hb, h1, h2, h3, ?_⟩
          simp only [e1, e2, e3]
          rfl
        · have e3 : has body "timestamp".toList = false := by
            cases h : has body "timestamp".toList
            · rfl
            · exact absurd ((has_iff _ _).1 h) h3
          right; right; right; left
          refine ⟨hb, h1, h2, h3, ?_⟩
          simp only [e1, e2, e3]
          rfl
      · have e2 : has body "os".toList = false := by
          cases h : has body "os".toList
          · rfl
          · exact absurd ((has_iff _ _).1 h) h2
        right; right; left
        refine ⟨hb, h1, h2, ?_⟩
        simp only [e1, e2]
        rfl
    · have e1 : has body "hostname".toList = false := by
        cases h : has body "hostname".toList
        · rfl
        · exact absurd ((has_iff _ _).1 h) h1
      right; left
      refine ⟨hb, h1, ?_⟩
      simp only [e1]
      rfl
  · left
    refine ⟨hb, ?_⟩
    rw [if_pos ((not_brace_iff body).2 hb)]

/-- C8. `json_has_required_keys` returns true exactly when the body starts with an
opening brace, ends with a closing brace and contains each of the quoted keys
`"hostname"`, `"os"` and `"timestamp"`; a body that is not brace-delimited gets the
reason `Body is not a JSON object.`, and a brace-delimited body that fails gets
`Missing required key: k` for the first `k` of hostname, os, timestamp whose quoted
form does not occur in it. -/
theorem json_has_required_keys_spec (body why : List Char) :
    ((json_has_required_keys body why).1 = true ↔
        BraceDelimited body ∧ ContainsKey body "hostname".toList
          ∧ ContainsKey body "os".toList ∧ ContainsKey body "timestamp".toList)
    ∧ (¬ BraceDelimited body →
        json_has_required_keys body why = (false, "Body is not a JSON object.".toList))
    ∧ (BraceDelimited body → ¬ ContainsKey body "hostname".toList →
        json_has_required_keys body why = (false, "Missing required key: hostname".toList))
    ∧ (BraceDelimited body → ContainsKey body "hostname".toList →
        ¬ ContainsKey body "os".toList →
        json_has_required_keys body why = (false, "Missing required key: os".toList))
    ∧ (BraceDelimited body → ContainsKey body "hostname".toList →
        ContainsKey body "os".toList → ¬ ContainsKey body "timestamp".toList →
        json_has_required_keys body why
          = (false, "Missing required key: timestamp".toList)) := by
  rcases json_has_required_keys_cases body why with
    ⟨hb, e⟩ | ⟨hb, h1, e⟩ | ⟨hb, h1, h2, e⟩ | ⟨hb, h1, h2, h3, e⟩ | ⟨hb, h1, h2, h3, e⟩
  all_goals
    refine ⟨⟨fun h => ?_, fun h => ?_⟩, ?_, ?_, ?_, ?_⟩
    · first
        | exact ⟨hb, h1, h2, h3⟩
        | (rw [e] at h; exact absurd h (by decide))
    · obtain ⟨k0, k1, k2, k3⟩ := h
      first
        | contradiction
        | (rw [e])
    all_goals intros; first | exact e | contradiction

/-- Witness for `json_has_required_keys_spec`: a brace-delimited body with the
`hostname` key and without the `os` key. -/
theorem json_has_required_keys_spec_witness :
    json_has_required_keys "\x7b\"hostname\":\"h\",\"timestamp\":\"t\"\x7d".toList []
      = (false, "Missing required key: os".toList) :=
  (json_has_required_keys_spec "\x7b\"hostname\":\"h\",\"timestamp\":\"t\"\x7d".toList []).2.2.2.1
    ⟨by decide, by decide⟩ ((has_iff _ _).1 (by decide))
    (fun k => absurd ((has_iff _ _).2 k) (by decide))

/-! ## The `POST /api/assets` route -/

/-- The route chain on a `POST /api/assets` request. -/
theorem route_post (html store body : List Char) :
    route html store "POST".toList "/api/assets".toList body
      = if !(json_has_required_keys body []).1 then
          (⟨400, "application/json; charset=utf-8".toList,
            "\x7b\"error\":\"".toList ++ json_escape (json_has_required_keys body []).2
              ++ "\"\x7d".toList⟩, store)
        else
          (⟨201, "application/json; charset=utf-8".toList, "\x7b\"ok\":true\x7d".toList⟩,
            store ++ body ++ "\n".toList) := by
  unfold route
  rw [if_neg (by decide), if_neg (by decide), if_neg (by decide), if_pos (by decide)]

/-- The route chain on an accepted `POST /api/assets` request. -/
theorem route_post_accepted (html store body : List Char)
    (h : (json_has_required_keys body []).1 = true) :
    route html store "POST".toList "/api/assets".toList body
      = (⟨201, "application/json; charset=utf-8".toList, "\x7b\"ok\":true\x7d".toList⟩,
            store ++ body ++ "\n".toList) := by
  rw [route_post, h]; rfl

/-- The route chain on a rejected `POST /api/assets` request. -/
theorem route_post_rejected (html store body reason : List Char)
    (h : json_has_required_keys body [] = (false, reason)) :
    route html store "POST".toList "/api/assets".toList body
      = (⟨400, "application/json; charset=utf-8".toList,
            "\x7b\"error\":\"".toList ++ json_escape reason ++ "\"\x7d".toList⟩, store) := by
  rw [route_post, h]; rfl

/-- C1 (amended). For every store and every body that is brace-delimited and contains
the three quoted keys, `POST /api/assets` answers 201 with the body `{"ok":true}` and
the store afterwards is the old store, then the body, then a newline. When moreover
the old store is empty or ends with a newline and the body holds no newline
character, the lines of the new store are the old lines followed by the body as one
line, so the line count grows by exactly one. -/
theorem post_valid_appends (html store body : List Char)
    (hb : BraceDelimited body) (h1 : ContainsKey body "hostname".toList)
    (h2 : ContainsKey body "os".toList) (h3 : ContainsKey body "timestamp".toList) :
    (route html store "POST".toList "/api/assets".toList body).1.code = 201
    ∧ (route html store "POST".toList "/api/assets".toList body).1.body
        = "\x7b\"ok\":true\x7d".toList
    ∧ (route html store "POST".toList "/api/assets".toList body).2
        = store ++ body ++ "\n".toList
    ∧ (NewlineTerminated store → '\n' ∉ body →
        getlines (route html store "POST".toList "/api/assets".toList body).2
            = getlines store ++ [body]
        ∧ (getlines (route html store "POST".toList "/api/assets".toList body).2).length
            = (getlines store).length + 1) := by
  have hv : (json_has_required_keys body []).1 = true := by
    rcases json_has_required_keys_cases body [] with
      ⟨k, _⟩ | ⟨_, k, _⟩ | ⟨_, _, k, _⟩ | ⟨_, _, _, k, _⟩ | ⟨_, _, _, _, e⟩
    · exact absurd hb k
    · exact absurd h1 k
    · exact absurd h2 k
    · exact absurd h3 k
    · rw [e]
  rw [route_post_accepted html store body hv]
  refine ⟨rfl, rfl, rfl, fun hs hn => ?_⟩
  have e : getlines (store ++ body ++ "\n".toList) = getlines store ++ [body] := by
    rw [List.append_assoc, getlines_append store _ hs]
    exact congrArg (getlines store ++ ·) (getlines_line body hn)
  exact ⟨e, by rw [e]; simp⟩

/-- Witness for `post_valid_appends`: a one-line record posted to the empty store. -/
theorem post_valid_appends_witness :
    (route [] [] "POST".toList "/api/assets".toList
        "\x7b\"hostname\":\"h\",\"os\":\"L\",\"timestamp\":\"t\"\x7d".toList).1.code = 201
    ∧ getlines (route [] [] "POST".toList "/api/assets".toList
        "\x7b\"hostname\":\"h\",\"os\":\"L\",\"timestamp\":\"t\"\x7d".toList).2
        = getlines [] ++ ["\x7b\"hostname\":\"h\",\"os\":\"L\",\"timestamp\":\"t\"\x7d".toList] :=
  have h := post_valid_appends [] []
    "\x7b\"hostname\":\"h\",\"os\":\"L\",\"timestamp\":\"t\"\x7d".toList
    ⟨by decide, by decide⟩ ((has_iff _ _).1 (by decide)) ((has_iff _ _).1 (by decide))
    ((has_iff _ _).1 (by decide))
  ⟨h.1, (h.2.2.2 (Or.inl rfl) (by decide)).1⟩

/-- C1, counterexample. A body that passes the required-key check and holds a
newline character (a record printed on two lines) is answered 201, and the line
count of the store grows from 0 to 2, not by one. -/
theorem post_valid_line_count_counterexample :
    BraceDelimited "\x7b\"hostname\":\"h\",\n\"os\":\"L\",\"timestamp\":\"t\"\x7d".toList
    ∧ ContainsKey "\x7b\"hostname\":\"h\",\n\"os\":\"L\",\"timestamp\":\"t\"\x7d".toList
        "hostname".toList
    ∧ ContainsKey "\x7b\"hostname\":\"h\",\n\"os\":\"L\",\"timestamp\":\"t\"\x7d".toList
        "os".toList
    ∧ ContainsKey "\x7b\"hostname\":\"h\",\n\"os\":\"L\",\"timestamp\":\"t\"\x7d".toList
        "timestamp".toList
    ∧ (getlines ([] : List Char)).length = 0
    ∧ (getlines (route [] [] "POST".toList "/api/assets".toList
        "\x7b\"hostname\":\"h\",\n\"os\":\"L\",\"timestamp\":\"t\"\x7d".toList).2).length = 2 :=
  ⟨⟨by decide, by decide⟩, (has_iff _ _).1 (by decide), (has_iff _ _).1 (by decide),
    (has_iff _ _).1 (by decide), by decide, by decide⟩

/-- C2. For every store and every body that lacks at least one of the quoted keys
`"hostname"`, `"os"`, `"timestamp"`, `POST /api/assets` answers 400 with a body
`{"error":"<reason>"}`, the reason being one of the four messages of
`json_has_required_keys`, and the store is unchanged. -/
theorem post_invalid_rejected (html store body : List Char)
    (h : ¬ (ContainsKey body "hostname".toList ∧ ContainsKey body "os".toList
      ∧ ContainsKey body "timestamp".toList)) :
    (route html store "POST".toList "/api/assets".toList body).1.code = 400
    ∧ (route html store "POST".toList "/api/assets".toList body).2 = store
    ∧ ∃ reason,
        reason ∈ ["Body is not a JSON object.".toList, "Missing required key: hostname".toList,
          "Missing required key: os".toList, "Missing required key: timestamp".toList]
        ∧ (route html store "POST".toList "/api/assets".toList body).1.body
          = "\x7b\"error\":\"".toList ++ reason ++ "\"\x7d".toList := by
  rcases json_has_required_keys_cases body [] with
    ⟨_, e⟩ | ⟨_, _, e⟩ | ⟨_, _, _, e⟩ | ⟨_, _, _, _, e⟩ | ⟨_, k1, k2, k3, _⟩
  · rw [route_post_rejected html store body _ e]
    exact ⟨rfl, rfl, _, List.mem_cons_self _ _, by rfl⟩
  · rw [route_post_rejected html store body _ e]
    exact ⟨rfl, rfl, _, List.mem_cons_of_mem _ (List.mem_cons_self _ _), by rfl⟩
  · rw [route_post_rejected html store body _ e]
    exact ⟨rfl, rfl, _,
      List.mem_cons_of_mem _ (List.mem_cons_of_mem _ (List.mem_cons_self _ _)), by rfl⟩
  · rw [route_post_rejected html store body _ e]
    exact ⟨rfl, rfl, _, List.mem_cons_of_mem _ (List.mem_cons_of_mem _
      (List.mem_cons_of_mem _ (List.mem_cons_self _ _))), by rfl⟩
  · exact absurd ⟨k1, k2, k3⟩ h

/-- Witness for `post_invalid_rejected`: a body without the `os` key. -/
theorem post_invalid_rejected_witness :
    (route [] "x\n".toList "POST".toList "/api/assets".toList
        "\x7b\"hostname\":\"h\",\"timestamp\":\"t\"\x7d".toList).1.code = 400
    ∧ (route [] "x\n".toList "POST".toList "/api/assets".toList
        "\x7b\"hostname\":\"h\",\"timestamp\":\"t\"\x7d".toList).2 = "x\n".toList :=
  have h := post_invalid_rejected [] "x\n".toList
    "\x7b\"hostname\":\"h\",\"timestamp\":\"t\"\x7d".toList
    (fun k => absurd ((has_iff _ _).2 k.2.1) (by decide))
  ⟨h.1, h.2.1⟩

/-! ## Posting records, then `GET /api/assets` -/

/-- The store after posting accepted bodies: every body followed by a newline. -/
theorem post_all_accepted (html : List Char) (bodies : List (List Char)) :
    ∀ (store : List Char), (∀ b ∈ bodies, (json_has_required_keys b []).1 = true) →
      post_all html store bodies = store ++ (bodies.map (· ++ "\n".toList)).flatten := by
  induction bodies with
  | nil => intro store _; simp [post_all]
  | cons b bs ih =>
    intro store h
    have hb := h b (List.mem_cons_self _ _)
    have e := ih (store ++ b ++ "\n".toList) (fun x hx => h x (List.mem_cons_of_mem _ hx))
    unfold post_all at e ⊢
    rw [List.foldl_cons, route_post_accepted html store b hb, e]
    simp [List.append_assoc]

/-- The lines of a content made of newline-free lines, each followed by a newline. -/
theorem getlines_flatten (ls : List (List Char)) (h : ∀ l ∈ ls, '\n' ∉ l) :
    getlines (ls.map (· ++ "\n".toList)).flatten = ls := by
  induction ls with
  | nil => rfl
  | cons l ls ih =>
    have hl := h l (List.mem_cons_self _ _)
    rw [List.map_cons, List.flatten_cons,
      getlines_append _ _ (Or.inr (by simp)), ih (fun x hx => h x (List.mem_cons_of_mem _ hx))]
    have : getlines (l ++ "\n".toList) = [l] := getlines_line l hl
    rw [this]; rfl

/-- The fold of the `GET /api/assets` route over non-empty lines, once the first
line is written. -/
theorem assets_fold_rest (ls : List (List Char)) (h : ∀ l ∈ ls, l ≠ []) :
    ∀ (out : List Char),
      ls.foldl
        (fun (st : List Char × Bool) line =>
          if line.isEmpty then st
          else ((if st.2 then st.1 else st.1 ++ ",".toList) ++ line, false))
        (out, false)
      = (out ++ (ls.map (",".toList ++ ·)).flatten, false) := by
  induction ls with
  | nil => intro out; simp
  | cons l ls ih =>
    intro out
    have hl : l.isEmpty = false := by
      have := h l (List.mem_cons_self _ _)
      cases l with
      | nil => exact absurd rfl this
      | cons _ _ => rfl
    rw [List.foldl_cons]
    simp only [hl, Bool.false_eq_true, if_false]
    rw [ih (fun x hx => h x (List.mem_cons_of_mem _ hx))]
    simp [List.append_assoc]

theorem intercalate_cons (sep l : List Char) (ls : List (List Char)) :
    List.intercalate sep (l :: ls) = l ++ (ls.map (sep ++ ·)).flatten := by
  induction ls generalizing l with
  | nil => simp [List.intercalate]
  | cons m ms ih =>
    have := ih m
    simp only [List.intercalate] at this ⊢
    simp only [List.intersperse, List.flatten_cons, List.map_cons]
    rw [this]
    simp [List.append_assoc]

/-- The array view of a store whose lines are non-empty. -/
theorem assets_json_lines (store : List Char) (h : ∀ l ∈ getlines store, l ≠ []) :
    assets_json store = "[".toList ++ List.intercalate ",".toList (getlines store) ++ "]".toList := by
  unfold assets_json
  cases hg : getlines store with
  | nil => rfl
  | cons l ls =>
    rw [hg] at h
    have hl : l.isEmpty = false := by
      have := h l (List.mem_cons_self _ _)
      cases l with
      | nil => exact absurd rfl this
      | cons _ _ => rfl
    rw [List.foldl_cons]
    simp only [hl]
    have := assets_fold_rest ls (fun x hx => h x (List.mem_cons_of_mem _ hx)) ("[".toList ++ l)
    simp only [Bool.false_eq_true, if_false, if_true] at this ⊢
    rw [this, intercalate_cons]
    simp [List.append_assoc]

theorem route_get_assets (html store body : List Char) :
    route html store "GET".toList "/api/assets".toList body
      = (⟨200, "application/json; charset=utf-8".toList, assets_json store⟩, store) := by
  unfold route
  rw [if_neg (by decide), if_pos (by decide)]

/-- C3 (amended). Starting from the empty store, for every list of bodies that are
accepted by the required-key check and hold no newline character, posted in order
to `POST /api/assets`, a following `GET /api/assets` answers 200 with the body `[`,
the posted bodies joined by `,` in posting order, `]`; the store then has exactly
these bodies as its lines. -/
theorem post_then_get_assets (html : List Char) (bodies : List (List Char))
    (get_body : List Char)
    (hv : ∀ b ∈ bodies, (json_has_required_keys b []).1 = true)
    (hn : ∀ b ∈ bodies, '\n' ∉ b) :
    route html (post_all html [] bodies) "GET".toList "/api/assets".toList get_body
      = (⟨200, "application/json; charset=utf-8".toList,
          "[".toList ++ List.intercalate ",".toList bodies ++ "]".toList⟩,
          post_all html [] bodies)
    ∧ getlines (post_all html [] bodies) = bodies := by
  have hs : post_all html [] bodies = (bodies.map (· ++ "\n".toList)).flatten := by
    rw [post_all_accepted html bodies [] hv]; rfl
  have hg : getlines (post_all html [] bodies) = bodies := by
    rw [hs]; exact getlines_flatten bodies hn
  have hne : ∀ l ∈ getlines (post_all html [] bodies), l ≠ [] := by
    intro l hl
    rw [hg] at hl
    intro e
    have := hv l hl
    rw [e] at this
    exact absurd this (by decide)
  refine ⟨?_, hg⟩
  rw [route_get_assets, assets_json_lines _ hne, hg]

/-- Witness for `post_then_get_assets`: two one-line records. -/
theorem post_then_get_assets_witness :
    (route [] (post_all [] []
        ["\x7b\"hostname\":\"a\",\"os\":\"L\",\"timestamp\":\"t\"\x7d".toList,
         "\x7b\"hostname\":\"b\",\"os\":\"L\",\"timestamp\":\"u\"\x7d".toList])
      "GET".toList "/api/assets".toList []).1.body
      = ("[\x7b\"hostname\":\"a\",\"os\":\"L\",\"timestamp\":\"t\"\x7d,"
          ++ "\x7b\"hostname\":\"b\",\"os\":\"L\",\"timestamp\":\"u\"\x7d]").toList :=
  (congrArg (fun r => r.1.body)
    (post_then_get_assets []
      ["\x7b\"hostname\":\"a\",\"os\":\"L\",\"timestamp\":\"t\"\x7d".toList,
       "\x7b\"hostname\":\"b\",\"os\":\"L\",\"timestamp\":\"u\"\x7d".toList] []
      (by decide) (by decide)).1).trans (by decide)

/-- C3, counterexample. One body that is accepted by the required-key check and
holds a newline character is posted to the empty store; `GET /api/assets` then
answers 200 with a body in which the newline has become a comma, which is not
`[` followed by the posted body followed by `]`. -/
theorem post_then_get_assets_counterexample :
    (json_has_required_keys
        "\x7b\"hostname\":\"h\",\"os\":\"L\",\n\"timestamp\":\"t\"\x7d".toList []).1 = true
    ∧ (route [] (post_all [] []
          ["\x7b\"hostname\":\"h\",\"os\":\"L\",\n\"timestamp\":\"t\"\x7d".toList])
        "GET".toList "/api/assets".toList []).1
      = ⟨200, "application/json; charset=utf-8".toList,
          "[\x7b\"hostname\":\"h\",\"os\":\"L\",,\"timestamp\":\"t\"\x7d]".toList⟩
    ∧ (route [] (post_all [] []
          ["\x7b\"hostname\":\"h\",\"os\":\"L\",\n\"timestamp\":\"t\"\x7d".toList])
        "GET".toList "/api/assets".toList []).1.body
      ≠ "[".toList ++ List.intercalate ",".toList
          ["\x7b\"hostname\":\"h\",\"os\":\"L\",\n\"timestamp\":\"t\"\x7d".toList]
        ++ "]".toList := by
  refine ⟨by decide, by decide, by decide⟩

/-! ## A request whose body is cut short -/

/-- C4, the code at the failing input. The peer sends the header block of a
`POST /api/assets` declaring `Content-Length: 70`, then 55 bytes of body (a record
cut right after the closing brace of a nested object), and closes. The server does
not drop the request: the cut body passes the required-key check, is appended to
the store as a record, and a 201 response is sent on the connection. -/
theorem truncated_post_is_stored :
    content_length "POST /api/assets HTTP/1.1\r\nHost: c\r\nContent-Length: 70".toList = 70
    ∧ "\x7b\"hostname\":\"h\",\"os\":\"L\",\"timestamp\":\"t\",\"tags\":\x7b\"a\":1\x7d".toList.length
        = 55
    ∧ serve_one [] []
        ["POST /api/assets HTTP/1.1\r\nHost: c\r\nContent-Length: 70\r\n\r\n".toList,
         "\x7b\"hostname\":\"h\",\"os\":\"L\",\"timestamp\":\"t\",\"tags\":\x7b\"a\":1\x7d".toList]
      = (some (http_response 201 "application/json; charset=utf-8".toList
            "\x7b\"ok\":true\x7d".toList),
          "\x7b\"hostname\":\"h\",\"os\":\"L\",\"timestamp\":\"t\",\"tags\":\x7b\"a\":1\x7d\n".toList) := by
  refine ⟨by decide, by decide, by decide⟩

/-! ## The CSV export -/

theorem mem_substr (s : List Char) (pos n : Nat) (c : Char) (h : c ∈ substr s pos n) : c ∈ s :=
  List.mem_of_mem_drop (List.mem_of_mem_take h)

/-- Every character that `pick` returns is a character of the record. -/
theorem mem_pick (json key : List Char) (c : Char) (h : c ∈ pick json key) : c ∈ json := by
  unfold pick at h
  simp only at h
  split at h
  · simp at h
  · split at h
    · split at h
      · simp at h
      · exact mem_substr _ _ _ _ h
    · split at h
      · exact mem_substr _ _ _ _ h
      · exact mem_substr _ _ _ _ h

/-- A CSV row built from a record without newline has no newline. -/
theorem newline_not_mem_csv_row (line : List Char) (h : '\n' ∉ line) : '\n' ∉ csv_row line := by
  intro hc
  unfold csv_row at hc
  simp only [List.mem_append] at hc
  have hcomma : '\n' ∉ ",".toList := by decide
  rcases hc with (((((((((((hc | hc) | hc) | hc) | hc) | hc) | hc) | hc) | hc) | hc) | hc) | hc) | hc
  all_goals first
    | exact h (mem_pick _ _ _ hc)
    | exact hcomma hc

/-- The fold of the CSV route in closed form. -/
theorem export_fold (ls : List (List Char)) :
    ∀ (csv : List Char),
      ls.foldl
        (fun csv line => if line.isEmpty then csv else csv ++ csv_row line ++ "\n".toList) csv
      = csv ++ (((ls.filter (fun l => !l.isEmpty)).map csv_row).map
          (· ++ "\n".toList)).flatten := by
  induction ls with
  | nil => intro csv; simp
  | cons l ls ih =>
    intro csv
    rw [List.foldl_cons, ih]
    cases hl : l.isEmpty
    · simp [List.filter_cons, hl, List.append_assoc]
    · simp [List.filter_cons, hl]

/-- The route chain on a `GET /api/export.csv` request. -/
theorem route_get_csv (html store body : List Char) :
    route html store "GET".toList "/api/export.csv".toList body
      = (⟨200, "text/csv; charset=utf-8".toList, export_csv store⟩, store) := by
  unfold route
  rw [if_neg (by decide), if_neg (by decide), if_pos (by decide)]

/-- The CSV text in closed form, and its lines. -/
theorem export_csv_lines (store : List Char) :
    export_csv store
      = csv_header ++ "\n".toList
        ++ ((((getlines store).filter (fun l => !l.isEmpty)).map csv_row).map
            (· ++ "\n".toList)).flatten
    ∧ getlines (export_csv store)
      = csv_header :: ((getlines store).filter (fun l => !l.isEmpty)).map csv_row := by
  have e : export_csv store
      = csv_header ++ "\n".toList
        ++ ((((getlines store).filter (fun l => !l.isEmpty)).map csv_row).map
            (· ++ "\n".toList)).flatten := by
    unfold export_csv
    exact export_fold _ _
  refine ⟨e, ?_⟩
  rw [e]
  have := getlines_flatten
    (csv_header :: ((getlines store).filter (fun l => !l.isEmpty)).map csv_row) (by
      intro l hl
      rcases List.mem_cons.1 hl with h | h
      · rw [h]; decide
      · obtain ⟨x, hx, rfl⟩ := List.mem_map.1 h
        exact newline_not_mem_csv_row x (mem_getlines store x (List.mem_of_mem_filter hx)))
  rw [List.map_cons, List.flatten_cons] at this
  exact this

/-- C5 (amended). For every store content, `GET /api/export.csv` answers 200 with a
body made of the fixed header row `id,hostname,os,cpu_cores,ram_mb,ip,timestamp`
followed by one row per non-empty line of the store, in order, each row ended by a
newline; read back line by line the body is the header and these rows, so the
number of CSV rows is the number of non-empty store lines plus one. -/
theorem export_csv_rows (html store body : List Char) :
    (route html store "GET".toList "/api/export.csv".toList body).1.code = 200
    ∧ (route html store "GET".toList "/api/export.csv".toList body).1.body
      = "id,hostname,os,cpu_cores,ram_mb,ip,timestamp\n".toList
        ++ ((((getlines store).filter (fun l => !l.isEmpty)).map csv_row).map
            (· ++ "\n".toList)).flatten
    ∧ getlines (route html store "GET".toList "/api/export.csv".toList body).1.body
      = "id,hostname,os,cpu_cores,ram_mb,ip,timestamp".toList
        :: ((getlines store).filter (fun l => !l.isEmpty)).map csv_row
    ∧ (getlines (route html store "GET".toList "/api/export.csv".toList body).1.body).length
      = ((getlines store).filter (fun l => !l.isEmpty)).length + 1 := by
  rw [route_get_csv]
  obtain ⟨e, g⟩ := export_csv_lines store
  refine ⟨rfl, e, g, ?_⟩
  show (getlines (export_csv store)).length = _
  rw [g]; simp

/-- C5, counterexample. A record printed with a blank line inside it is posted to
the empty store, which then has three lines, one of them empty; the CSV export has
three rows (the header and two rows), not four. -/
theorem export_csv_rows_counterexample :
    (route [] [] "POST".toList "/api/assets".toList
        "\x7b\"id\":\"a\",\"hostname\":\"h\",\n\n\"os\":\"L\",\"timestamp\":\"t\"\x7d".toList).2
      = "\x7b\"id\":\"a\",\"hostname\":\"h\",\n\n\"os\":\"L\",\"timestamp\":\"t\"\x7d\n".toList
    ∧ (getlines
        "\x7b\"id\":\"a\",\"hostname\":\"h\",\n\n\"os\":\"L\",\"timestamp\":\"t\"\x7d\n".toList).length
      = 3
    ∧ (getlines (route []
        "\x7b\"id\":\"a\",\"hostname\":\"h\",\n\n\"os\":\"L\",\"timestamp\":\"t\"\x7d\n".toList
        "GET".toList "/api/export.csv".toList []).1.body).length
      = 3 := by
  refine ⟨by decide, by decide, by decide⟩

/-! ## The id column of an exported record -/

/-- `json_escape` leaves a string without backslash, quote, newline, carriage return
and tab as it is. -/
theorem json_escape_plain (s : List Char)
    (h : ∀ c ∈ s, c ≠ '\\' ∧ c ≠ '"' ∧ c ≠ '\n' ∧ c ≠ '\r' ∧ c ≠ '\t') :
    json_escape s = s := by
  induction s with
  | nil => rfl
  | cons c s ih =>
    obtain ⟨h1, h2, h3, h4, h5⟩ := h c (List.mem_cons_self _ _)
    rw [json_escape, if_neg h1, if_neg h2, if_neg h3, if_neg h4, if_neg h5,
      ih (fun x hx => h x (List.mem_cons_of_mem _ hx))]
    rfl

/-- Searching one character that first occurs right after `s`. -/
theorem find_char (c : Char) (s r : List Char) (h : c ∉ s) :
    find (s ++ c :: r) [c] = some s.length := by
  induction s with
  | nil =>
    rw [List.nil_append, find_cons, if_pos (by simp [List.isPrefixOf])]
    rfl
  | cons a s ih =>
    have ha : a ≠ c := fun e => h (by simp [e])
    have hs : c ∉ s := fun e => h (by simp [e])
    rw [List.cons_append, find_cons, if_neg (by simp [List.isPrefixOf]; exact fun e => ha e.symm), ih hs]
    rfl

/-- The record that `build_asset_json` writes starts with the `id` member. -/
theorem build_asset_json_head (id ip hostname os : List Char) (cores : Nat) (ram_mb : Int)
    (ts : List Char) :
    ∃ tail, build_asset_json id ip hostname os cores ram_mb ts
      = '\x7b' :: '"' :: 'i' :: 'd' :: '"' :: ':' :: '"' :: (json_escape id ++ '"' :: tail) := by
  unfold build_asset_json
  simp only [List.append_assoc]
  exact ⟨_, rfl⟩

/-- What `pick` returns for `id` on a record that starts with a quoted `id` value. -/
theorem pick_id_head (v tail : List Char) (hv : '"' ∉ v) :
    pick ('\x7b' :: '"' :: 'i' :: 'd' :: '"' :: ':' :: '"' :: (v ++ '"' :: tail)) "id".toList
      = v := by
  have hk : "\"".toList ++ "id".toList ++ "\":".toList = ['"', 'i', 'd', '"', ':'] := rfl
  have hf : find ('\x7b' :: '"' :: 'i' :: 'd' :: '"' :: ':' :: '"' :: (v ++ '"' :: tail))
      ['"', 'i', 'd', '"', ':'] = some 1 := by
    rw [find_cons, if_neg (by simp [List.isPrefixOf]), find_cons,
      if_pos (by simp [List.isPrefixOf])]
    rfl
  unfold pick
  simp only [hk, hf]
  have hd : List.drop (1 + ['"', 'i', 'd', '"', ':'].length)
      ('\x7b' :: '"' :: 'i' :: 'd' :: '"' :: ':' :: '"' :: (v ++ '"' :: tail))
      = '"' :: (v ++ '"' :: tail) := rfl
  rw [hd]
  have ht : ('"' :: (v ++ '"' :: tail)).takeWhile (fun c => c == ' ') = [] := by
    rw [List.takeWhile_cons_of_neg (by decide)]
  rw [ht]
  have hget : ('\x7b' :: '"' :: 'i' :: 'd' :: '"' :: ':' :: '"' :: (v ++ '"' :: tail)).get?
      (1 + ['"', 'i', 'd', '"', ':'].length + ([] : List Char).length) = some '"' := rfl
  rw [if_pos hget]
  have hff : find_from ('\x7b' :: '"' :: 'i' :: 'd' :: '"' :: ':' :: '"' :: (v ++ '"' :: tail))
      ['"'] (1 + ['"', 'i', 'd', '"', ':'].length + ([] : List Char).length + 1)
      = some (v.length + 7) := by
    unfold find_from
    have : List.drop (1 + ['"', 'i', 'd', '"', ':'].length + ([] : List Char).length + 1)
        ('\x7b' :: '"' :: 'i' :: 'd' :: '"' :: ':' :: '"' :: (v ++ '"' :: tail))
        = v ++ '"' :: tail := rfl
    rw [this, find_char '"' v tail hv]
    rfl
  rw [hff]
  show substr _ 7 (v.length + 7 - 7) = v
  unfold substr
  have : List.drop 7 ('\x7b' :: '"' :: 'i' :: 'd' :: '"' :: ':' :: '"' :: (v ++ '"' :: tail))
      = v ++ '"' :: tail := rfl
  rw [this, Nat.add_sub_cancel, List.take_left]

/-- C6 (amended). For every id string without backslash, double quote, newline,
carriage return, tab and comma, the record that `build_asset_json` builds with this
id is exported with an id column equal to the id: `pick` returns the id for the key
`id`, and the first comma-separated field of the CSV row of the record is the id. -/
theorem exported_id_of_built_record (id ip hostname os : List Char) (cores : Nat)
    (ram_mb : Int) (ts : List Char)
    (h : ∀ c ∈ id, c ≠ '\\' ∧ c ≠ '"' ∧ c ≠ '\n' ∧ c ≠ '\r' ∧ c ≠ '\t' ∧ c ≠ ',') :
    pick (build_asset_json id ip hostname os cores ram_mb ts) "id".toList = id
    ∧ (csv_row (build_asset_json id ip hostname os cores ram_mb ts)).takeWhile
        (fun c => c != ',') = id := by
  have he : json_escape id = id :=
    json_escape_plain id (fun c hc => ⟨(h c hc).1, (h c hc).2.1, (h c hc).2.2.1,
      (h c hc).2.2.2.1, (h c hc).2.2.2.2.1⟩)
  have hq : '"' ∉ id := fun hc => (h _ hc).2.1 rfl
  have hp : pick (build_asset_json id ip hostname os cores ram_mb ts) "id".toList = id := by
    obtain ⟨tail, e⟩ := build_asset_json_head id ip hostname os cores ram_mb ts
    rw [e, he]
    exact pick_id_head id tail hq
  refine ⟨hp, ?_⟩
  unfold csv_row
  simp only [List.append_assoc]
  rw [hp]
  show List.takeWhile (fun c => c != ',') (id ++ ',' :: _) = id
  rw [List.takeWhile_append_of_pos (fun c hc => by simpa using (h c hc).2.2.2.2.2),
    List.takeWhile_cons_of_neg (by simp), List.append_nil]

/-- Witness for `exported_id_of_built_record`: the id `a1`. -/
theorem exported_id_of_built_record_witness :
    pick (build_asset_json "a1".toList "10.0.0.5".toList "h".toList "Linux".toList 4 8192
      "2024-01-01T00:00:00".toList) "id".toList = "a1".toList
    ∧ (csv_row (build_asset_json "a1".toList "10.0.0.5".toList "h".toList "Linux".toList 4 8192
      "2024-01-01T00:00:00".toList)).takeWhile (fun c => c != ',') = "a1".toList :=
  exported_id_of_built_record "a1".toList "10.0.0.5".toList "h".toList "Linux".toList 4 8192
    "2024-01-01T00:00:00".toList (by decide)

/-- C6, counterexample. The agent builds a record with the id `a"b`; `json_escape`
writes the quote as backslash, quote, and `pick` stops at that quote, so the id
column of the exported row is `a\`, not the id. -/
theorem exported_id_counterexample :
    pick (build_asset_json "a\"b".toList "10.0.0.5".toList "h".toList "Linux".toList 4 8192
      "2024-01-01T00:00:00".toList) "id".toList = "a\\".toList
    ∧ (csv_row (build_asset_json "a\"b".toList "10.0.0.5".toList "h".toList "Linux".toList 4
      8192 "2024-01-01T00:00:00".toList)).takeWhile (fun c => c != ',') = "a\\".toList
    ∧ "a\\".toList ≠ "a\"b".toList := by
  refine ⟨by decide, by decide, by decide⟩

/-! ## The agent retry loop -/

theorem in_int_range_iff (v : Int) :
    in_int_range v = true ↔ -(2 ^ 31) ≤ v ∧ v ≤ 2 ^ 31 - 1 := by
  unfold in_int_range
  simp

theorem in_int_range_false_iff (v : Int) :
    in_int_range v = false ↔ ¬ (-(2 ^ 31) ≤ v ∧ v ≤ 2 ^ 31 - 1) := by
  rw [← in_int_range_iff]
  simp

theorem retry_loop_all_fail (post : Nat → Int) (hf : ∀ k, post k ≠ 201 ∧ post k ≠ 200) :
    ∀ (d : Nat) (a : Int) (calls : Nat), 0 ≤ a → a + d ≤ 4294967 →
      retry_loop post (a + d) a calls = some (1, expected_trace d a) := by
  intro d
  induction d with
  | zero =>
    intro a calls h0 hb
    rw [retry_loop]
    have h3 : ¬ in_int_range (a + 1) = false := by
      rw [in_int_range_false_iff]; omega
    simp [hf calls, expected_trace, h3]
  | succ d ih =>
    intro a calls h0 hb
    rw [retry_loop]
    have h1 : a ≤ a + ((d + 1 : Nat) : Int) := by omega
    have h2 : ¬ (a + 1 > a + ((d + 1 : Nat) : Int)) := by omega
    have h3 : ¬ in_int_range (a + 1) = false := by
      rw [in_int_range_false_iff]; omega
    have h4 : ¬ in_int_range (500 * (a + 1)) = false := by
      rw [in_int_range_false_iff]; omega
    have e : a + ((d + 1 : Nat) : Int) = (a + 1) + (d : Int) := by push_cast; ring
    rw [if_pos h1]
    simp only [hf calls, false_or, if_false]
    rw [if_neg h3, if_neg h2, if_neg h4, e, ih (a + 1) (calls + 1) (by omega) (by omega)]
    rfl

theorem retry_loop_success (post : Nat → Int) :
    ∀ (j : Nat) (a : Int) (calls : Nat) (retries : Int),
      0 ≤ a → a + j ≤ retries → a + j ≤ 4294967 →
      (∀ k, k < j → post (calls + k) ≠ 201 ∧ post (calls + k) ≠ 200) →
      (post (calls + j) = 201 ∨ post (calls + j) = 200) →
      retry_loop post retries a calls = some (0, expected_trace j a) := by
  intro j
  induction j with
  | zero =>
    intro a calls retries _ hle _ _ hs
    rw [retry_loop]
    have h1 : a ≤ retries := by simpa using hle
    rw [if_pos h1]
    simp only [Nat.add_zero] at hs
    simp [hs, expected_trace]
  | succ j ih =>
    intro a calls retries h0 hle hb hf hs
    rw [retry_loop]
    have h1 : a ≤ retries := by omega
    have h2 : ¬ (a + 1 > retries) := by omega
    have h3 : ¬ in_int_range (a + 1) = false := by
      rw [in_int_range_false_iff]; omega
    have h4 : ¬ in_int_range (500 * (a + 1)) = false := by
      rw [in_int_range_false_iff]; omega
    have hc := hf 0 (by omega)
    simp only [Nat.add_zero] at hc
    rw [if_pos h1]
    simp only [hc, false_or, if_false]
    rw [if_neg h3, if_neg h2, if_neg h4,
      ih (a + 1) (calls + 1) retries (by omega) (by omega) (by omega)
        (fun k hk => by have := hf (k + 1) (by omega); rwa [Nat.add_assoc, Nat.add_comm 1 k])
        (by rwa [Nat.add_assoc, Nat.add_comm 1 j])]
    rfl

/-- With a retry count from 4294968 on and attempts that all fail, the loop reaches
the product `500 * 4294968`, which a 32-bit `int` does not hold. -/
theorem retry_loop_overflow (post : Nat → Int) (hf : ∀ k, post k ≠ 201 ∧ post k ≠ 200)
    (retries : Int) (hr : 4294968 ≤ retries) :
    ∀ (k : Nat) (a : Int) (calls : Nat), 0 ≤ a → a + k = 4294967 →
      retry_loop post retries a calls = none := by
  intro k
  induction k with
  | zero =>
    intro a calls h0 ha
    have ha2 : a = 4294967 := by simpa using ha
    subst ha2
    rw [retry_loop]
    have h1 : (4294967 : Int) ≤ retries := by omega
    have h2 : ¬ ((4294967 : Int) + 1 > retries) := by omega
    have h3 : ¬ in_int_range ((4294967 : Int) + 1) = false := by
      rw [in_int_range_false_iff]; omega
    have h4 : in_int_range (500 * ((4294967 : Int) + 1)) = false := by
      rw [in_int_range_false_iff]; omega
    rw [if_pos h1]
    simp only [hf calls, false_or, if_false]
    rw [if_neg h3, if_neg h2, if_pos h4]
  | succ k ih =>
    intro a calls h0 ha
    rw [retry_loop]
    have h1 : a ≤ retries := by omega
    have h2 : ¬ (a + 1 > retries) := by omega
    have h3 : ¬ in_int_range (a + 1) = false := by
      rw [in_int_range_false_iff]; omega
    have h4 : ¬ in_int_range (500 * (a + 1)) = false := by
      rw [in_int_range_false_iff]; omega
    rw [if_pos h1]
    simp only [hf calls, false_or, if_false]
    rw [if_neg h3, if_neg h2, if_neg h4, ih (a + 1) (calls + 1) (by omega) (by omega)]

theorem attempts_expected_trace (n : Nat) : ∀ a : Int, attempts (expected_trace n a) = n + 1 := by
  induction n with
  | zero => intro a; rfl
  | succ n ih => intro a; simp [expected_trace, attempts, ih]

theorem delays_expected_trace (n : Nat) :
    ∀ a : Int, delays (expected_trace n a)
      = (List.range n).map (fun k => 500 * (a + ((k : Nat) : Int) + 1)) := by
  induction n with
  | zero => intro a; rfl
  | succ n ih =>
    intro a
    rw [expected_trace, delays, delays, ih (a + 1), List.range_succ_eq_map, List.map_cons,
      List.map_map]
    congr 1
    · simp
    · apply List.map_congr_left
      intro k _
      simp only [Function.comp, Nat.succ_eq_add_one]
      push_cast; ring

theorem pairwise_delays (n : Nat) (a : Int) :
    List.Pairwise (· < ·) (delays (expected_trace n a)) := by
  rw [delays_expected_trace, List.pairwise_map]
  have : List.Pairwise (· < ·) (List.range n) := List.pairwise_lt_range n
  exact this.imp (fun {x y} hxy => by omega)

/-- C7 (amended). For every retry count `retries >= 0`: when `retries <= 4294967`,
so that every delay `500 * k` fits in a 32-bit `int`, and every attempt returns a code
other than 200 and 201, the retry loop makes exactly `retries + 1` attempts, sleeps
`500 * k` ms between attempt `k` and attempt `k + 1` for `k = 1..retries` (so the
delays are strictly increasing) and ends with exit code 1; and when the attempt
number `j` (from 0, `j <= retries`, `j <= 4294967`) is the first to return 200 or
201, the loop ends there with exit code 0 after `j + 1` attempts and makes no
further attempt. -/
theorem agent_retry_spec (post : Nat → Int) (retries : Int) (h0 : 0 ≤ retries) :
    ((∀ k, post k ≠ 201 ∧ post k ≠ 200) → retries ≤ 4294967 →
      agent_send post retries = some (1, expected_trace retries.toNat 0)
      ∧ attempts (expected_trace retries.toNat 0) = retries.toNat + 1
      ∧ delays (expected_trace retries.toNat 0)
          = (List.range retries.toNat).map (fun k => 500 * (((k : Nat) : Int) + 1))
      ∧ List.Pairwise (· < ·) (delays (expected_trace retries.toNat 0)))
    ∧ (∀ j : Nat, (j : Int) ≤ retries → (j : Int) ≤ 4294967 →
        (∀ k, k < j → post k ≠ 201 ∧ post k ≠ 200) →
        (post j = 201 ∨ post j = 200) →
        agent_send post retries = some (0, expected_trace j 0)
        ∧ attempts (expected_trace j 0) = j + 1
        ∧ delays (expected_trace j 0)
            = (List.range j).map (fun k => 500 * (((k : Nat) : Int) + 1))) := by
  constructor
  · intro hf hb
    have e : agent_send post retries = some (1, expected_trace retries.toNat 0) := by
      have := retry_loop_all_fail post hf retries.toNat 0 0 (by omega) (by omega)
      rw [Int.toNat_of_nonneg h0, Int.zero_add] at this
      exact this
    refine ⟨e, attempts_expected_trace _ _, ?_, pairwise_delays _ _⟩
    rw [delays_expected_trace]
    simp
  · intro j hj hjb hf hs
    have e : agent_send post retries = some (0, expected_trace j 0) :=
      retry_loop_success post j 0 0 retries (by omega) (by omega) (by omega)
        (fun k hk => by simpa using hf k hk) (by simpa using hs)
    refine ⟨e, attempts_expected_trace _ _, ?_⟩
    rw [delays_expected_trace]
    simp

/-- Witness for `agent_retry_spec`: three retries against a server that always
answers 500, and against a server that answers 201 at the third attempt. -/
theorem agent_retry_spec_witness :
    agent_send (fun _ => 500) 3
      = some (1, [Event.attempt, Event.sleep 500, Event.attempt, Event.sleep 1000,
          Event.attempt, Event.sleep 1500, Event.attempt])
    ∧ agent_send (fun k => if k = 2 then 201 else 500) 3
      = some (0, [Event.attempt, Event.sleep 500, Event.attempt, Event.sleep 1000,
          Event.attempt]) :=
  ⟨((agent_retry_spec (fun _ => 500) 3 (by decide)).1 (fun _ => by decide) (by decide)).1,
   ((agent_retry_spec (fun k => if k = 2 then 201 else 500) 3 (by decide)).2 2 (by decide)
      (by decide)
      (fun k hk => by
        have : k ≠ 2 := by omega
        simp [this])
      (by simp)).1⟩

/-- C7, counterexample. With `retries = 4294968` and a server that always answers
500, the loop comes to `int backoff_ms = 500 * attempt` with `attempt = 4294968`:
the product 2147484000 is above the largest `int`, 2147483647, so the run has a
signed overflow and no defined result; it does not sleep 2147484000 ms and report
failure after 4294969 attempts. -/
theorem agent_retry_overflow_counterexample :
    (500 : Int) * 4294968 = 2147484000
    ∧ in_int_range (500 * 4294968) = false
    ∧ agent_send (fun _ => 500) 4294968 = none :=
  ⟨by decide, by decide,
    retry_loop_overflow (fun _ => 500)
      (fun _ => ⟨show (500 : Int) ≠ 201 by decide, show (500 : Int) ≠ 200 by decide⟩)
      4294968 (by decide) 4294967 0 0 (by decide) (by decide)⟩

/-! ## The example scenario -/

/-- C9. The example scenario on an empty store: posting the example record to
`POST /api/assets` answers 201 and the store then holds the record and a newline;
a following `GET /api/assets` answers 200 with `[`, the record, `]`; a following
`GET /api/export.csv` answers 200 with the header row
`id,hostname,os,cpu_cores,ram_mb,ip,timestamp` followed by the row
`a1,h,Linux,4,8192,10.0.0.5,2024-01-01T00:00:00`. The same holds on the wire, for
the request bytes the agent sends and plain `GET` requests. -/
theorem example_scenario :
    route [] [] "POST".toList "/api/assets".toList example_record
      = (⟨201, "application/json; charset=utf-8".toList, "\x7b\"ok\":true\x7d".toList⟩,
          example_record ++ "\n".toList)
    ∧ route [] (example_record ++ "\n".toList) "GET".toList "/api/assets".toList []
      = (⟨200, "application/json; charset=utf-8".toList,
          "[".toList ++ example_record ++ "]".toList⟩, example_record ++ "\n".toList)
    ∧ route [] (example_record ++ "\n".toList) "GET".toList "/api/export.csv".toList []
      = (⟨200, "text/csv; charset=utf-8".toList,
          ("id,hostname,os,cpu_cores,ram_mb,ip,timestamp\n"
            ++ "a1,h,Linux,4,8192,10.0.0.5,2024-01-01T00:00:00\n").toList⟩,
          example_record ++ "\n".toList)
    ∧ serve_one [] [] [http_request "127.0.0.1".toList 8080 "/api/assets".toList example_record]
      = (some (http_response 201 "application/json; charset=utf-8".toList
          "\x7b\"ok\":true\x7d".toList), example_record ++ "\n".toList)
    ∧ serve_one [] (example_record ++ "\n".toList)
        ["GET /api/assets HTTP/1.1\r\nHost: 127.0.0.1:8080\r\n\r\n".toList]
      = (some (http_response 200 "application/json; charset=utf-8".toList
          ("[".toList ++ example_record ++ "]".toList)), example_record ++ "\n".toList)
    ∧ serve_one [] (example_record ++ "\n".toList)
        ["GET /api/export.csv HTTP/1.1\r\nHost: 127.0.0.1:8080\r\n\r\n".toList]
      = (some (http_response 200 "text/csv; charset=utf-8".toList
          ("id,hostname,os,cpu_cores,ram_mb,ip,timestamp\n"
            ++ "a1,h,Linux,4,8192,10.0.0.5,2024-01-01T00:00:00\n").toList),
          example_record ++ "\n".toList) := by
  refine ⟨by decide, by decide, by decide, by decide, by decide, by decide⟩

/-! ## The header scan for `Content-Length` -/

theorem isContentLengthLine_iff (hline : List Char) :
    "content-length:".toList.isPrefixOf ((strip_cr hline).map tolower) = true
      ↔ IsContentLengthLine hline := by
  rw [List.isPrefixOf_iff_prefix]
  constructor
  · rintro ⟨r, hr⟩
    refine ⟨(strip_cr hline).take 15, (strip_cr hline).drop 15, (List.take_append_drop _ _).symm, ?_⟩
    have := congrArg (List.take 15) hr
    rw [← List.map_take] at this
    rw [← this]
    rfl
  · rintro ⟨name, value, e, hn⟩
    rw [e, List.map_append, hn]
    exact List.prefix_append _ _

theorem content_length_step_of_match (acc : Int) (hline : List Char)
    (h : IsContentLengthLine hline) :
    content_length_step acc hline = atoll (header_value hline) := by
  unfold content_length_step
  simp only
  rw [if_pos ((isContentLengthLine_iff hline).2 h)]
  rfl

theorem content_length_step_of_not_match (acc : Int) (hline : List Char)
    (h : ¬ IsContentLengthLine hline) :
    content_length_step acc hline = acc := by
  unfold content_length_step
  simp only
  rw [if_neg (fun k => h ((isContentLengthLine_iff hline).1 k))]

theorem foldl_step_of_not_match (lines : List (List Char))
    (h : ∀ l ∈ lines, ¬ IsContentLengthLine l) :
    ∀ acc : Int, lines.foldl content_length_step acc = acc := by
  induction lines with
  | nil => intro acc; rfl
  | cons l ls ih =>
    intro acc
    rw [List.foldl_cons, content_length_step_of_not_match acc l (h l (List.mem_cons_self _ _)),
      ih (fun x hx => h x (List.mem_cons_of_mem _ hx))]

theorem foldl_step_cases (lines : List (List Char)) :
    ∀ acc : Int, lines.foldl content_length_step acc = acc
      ∨ ∃ l ∈ lines, IsContentLengthLine l
          ∧ lines.foldl content_length_step acc = atoll (header_value l) := by
  induction lines with
  | nil => intro acc; exact Or.inl rfl
  | cons l ls ih =>
    intro acc
    rw [List.foldl_cons]
    rcases ih (content_length_step acc l) with e | ⟨m, hm, hcl, e⟩
    · by_cases hl : IsContentLengthLine l
      · right
        exact ⟨l, List.mem_cons_self _ _, hl, by rw [e, content_length_step_of_match acc l hl]⟩
      · left
        rw [e, content_length_step_of_not_match acc l hl]
    · right
      exact ⟨m, List.mem_cons_of_mem _ hm, hcl, e⟩

theorem atoll_neg (s : List Char) (h : atoll s < 0) :
    (s.dropWhile isspace).head? = some '-' := by
  unfold atoll at h
  simp only at h
  by_contra hc
  have hneg : ((s.dropWhile isspace).head? == some '-') = false := by
    cases hb : ((s.dropWhile isspace).head? == some '-')
    · rfl
    · exact absurd (by simpa using hb) hc
  rw [hneg] at h
  simp only [Bool.false_eq_true, if_false] at h
  split at h
  · rename_i h1
    have : (0 : Int) ≤ (digits_value (List.takeWhile Char.isDigit
      (if (false || (s.dropWhile isspace).head? == some '+') = true
        then List.drop 1 (s.dropWhile isspace) else s.dropWhile isspace)) : Int) :=
      Int.ofNat_nonneg _
    omega
  · split at h
    · omega
    · have : (0 : Int) ≤ (digits_value (List.takeWhile Char.isDigit
        (if (false || (s.dropWhile isspace).head? == some '+') = true
          then List.drop 1 (s.dropWhile isspace) else s.dropWhile isspace)) : Int) :=
        Int.ofNat_nonneg _
      omega

theorem strip_cr_name_append (name value : List Char)
    (hn : name.map tolower = "content-length:".toList) :
    ∃ value2, strip_cr (name ++ value) = name ++ value2 := by
  unfold strip_cr
  by_cases h : (name ++ value).getLast? = some '\r'
  · rw [if_pos h]
    cases hv : value.getLast? with
    | none =>
      have hv2 : value = [] := by simpa using hv
      subst hv2
      exfalso
      rw [List.append_nil] at h
      obtain ⟨ys, hy⟩ := List.getLast?_eq_some_iff.1 h
      rw [hy, List.map_append] at hn
      have := congrArg List.getLast? hn
      rw [List.getLast?_append] at this
      have h2 : (List.map tolower ['\r']).getLast? = some '\r' := by decide
      have h3 : (some '\r' : Option Char).or (List.map tolower ys).getLast? = some '\r' := rfl
      rw [h2, h3] at this
      exact absurd this (by decide)
    | some c =>
      obtain ⟨ys, hy⟩ := List.getLast?_eq_some_iff.1 hv
      refine ⟨ys, ?_⟩
      rw [hy, ← List.append_assoc, List.dropLast_concat]
  · rw [if_neg h]
    exact ⟨value, rfl⟩

/-- C10 (amended). For every header block, the `Content-Length` that the server
extracts is 0 when no line of the block is a `content-length:` line in any letter
case; otherwise it is the `atoll` value of the text that follows the name in the
last such line; it is negative only if that text starts, after white space, with a
minus sign; and a line made of a name that is `content-length:` in any letter case
followed by any value is such a line. -/
theorem content_length_extracted (headers : List Char) :
    ((∀ l ∈ getlines headers, ¬ IsContentLengthLine l) → content_length headers = 0)
    ∧ (∀ pre l post, getlines headers = pre ++ l :: post → IsContentLengthLine l →
        (∀ m ∈ post, ¬ IsContentLengthLine m) →
        content_length headers = atoll (header_value l))
    ∧ (content_length headers < 0 →
        ∃ l ∈ getlines headers, IsContentLengthLine l
          ∧ content_length headers = atoll (header_value l)
          ∧ ((header_value l).dropWhile isspace).head? = some '-')
    ∧ (∀ name value, name.map tolower = "content-length:".toList →
        IsContentLengthLine (name ++ value)) := by
  refine ⟨fun h => ?_, fun pre l post e hl hpost => ?_, fun hneg => ?_, fun name value hn => ?_⟩
  · unfold content_length
    exact foldl_step_of_not_match _ h 0
  · unfold content_length
    rw [e, List.foldl_append, List.foldl_cons, foldl_step_of_not_match post hpost,
      content_length_step_of_match _ l hl]
  · unfold content_length at hneg ⊢
    rcases foldl_step_cases (getlines headers) 0 with e | ⟨l, hl, hcl, e⟩
    · rw [e] at hneg; exact absurd hneg (by decide)
    · exact ⟨l, hl, hcl, e, atoll_neg _ (by rw [← e]; exact hneg)⟩
  · obtain ⟨value2, e⟩ := strip_cr_name_append name value hn
    exact ⟨name, value2, e, hn⟩

/-- Witness for `content_length_extracted`: a header block whose `Content-Length`
line is written in mixed case and is followed by another header line. -/
theorem content_length_extracted_witness :
    content_length "POST /api/assets HTTP/1.1\r\ncOnTeNt-LeNgTh: 42\r\nHost: c".toList = 42 :=
  ((content_length_extracted
      "POST /api/assets HTTP/1.1\r\ncOnTeNt-LeNgTh: 42\r\nHost: c".toList).2.1
    ["POST /api/assets HTTP/1.1\r".toList] "cOnTeNt-LeNgTh: 42\r".toList ["Host: c".toList]
    (by decide)
    ((isContentLengthLine_iff _).1 (by decide))
    (fun m hm k => by
      rw [List.mem_singleton.1 hm] at k
      exact absurd ((isContentLengthLine_iff _).2 k) (by decide))).trans (by decide)

/-- C10, counterexample. A header block with the line `Content-Length: -5`: the
extracted value is -5, which is not a non-negative integer. -/
theorem content_length_negative_counterexample :
    content_length "POST /api/assets HTTP/1.1\r\nContent-Length: -5\r\nHost: c".toList = -5
    ∧ ¬ (0 ≤ content_length
          "POST /api/assets HTTP/1.1\r\nContent-Length: -5\r\nHost: c".toList) := by
  refine ⟨by decide, by decide⟩

/-! ## The delimiter-bounded receive `read_until` -/

/-- Where `find` succeeds, the pattern lies inside the string at that index. -/
theorem find_some_split (pat : List Char) :
    ∀ (s : List Char) (i : Nat), find s pat = some i →
      i + pat.length ≤ s.length ∧ s = s.take i ++ pat ++ s.drop (i + pat.length) := by
  intro s
  induction s with
  | nil =>
    intro i h
    rw [find_nil] at h
    split at h
    · rename_i hp
      obtain ⟨r, hr⟩ := List.isPrefixOf_iff_prefix.1 hp
      have hp0 : pat = [] := (List.append_eq_nil.1 hr).1
      cases h
      subst hp0
      simp
    · cases h
  | cons a t ih =>
    intro i h
    rw [find_cons] at h
    split at h
    · rename_i hp
      obtain ⟨r, hr⟩ := List.isPrefixOf_iff_prefix.1 hp
      cases h
      have hl : (a :: t).length = pat.length + r.length := by rw [← hr, List.length_append]
      refine ⟨by omega, ?_⟩
      rw [Nat.zero_add, List.take_zero, List.nil_append]
      have hd : (a :: t).drop pat.length = r := by
        rw [← hr, List.drop_left]
      rw [hd, hr]
    · cases hf : find t pat with
      | none => rw [hf] at h; cases h
      | some j =>
        rw [hf] at h
        cases h
        obtain ⟨h1, h2⟩ := ih j hf
        refine ⟨by simp only [List.length_cons]; omega, ?_⟩
        have e : j + 1 + pat.length = (j + pat.length) + 1 := by omega
        rw [e, List.take_succ_cons, List.drop_succ_cons, List.cons_append, List.cons_append, ← h2]

/-- What `read_until` has accumulated is the initial data followed by the chunks it
consumed, and the chunks it returns are the ones it did not consume. -/
theorem read_until_accumulates (delim : List Char) (max_bytes : Nat) :
    ∀ (chunks : List (List Char)) (data : List Char),
      ∃ taken, chunks = taken ++ (read_until chunks data delim max_bytes).2.2
        ∧ (read_until chunks data delim max_bytes).2.1 = data ++ taken.flatten := by
  intro chunks
  induction chunks with
  | nil =>
    intro data
    refine ⟨[], ?_, ?_⟩
    · unfold read_until; split <;> [split; skip] <;> rfl
    · unfold read_until; split <;> [split; skip] <;> simp
  | cons c rest ih =>
    intro data
    unfold read_until
    by_cases h1 : data.length < max_bytes
    · rw [if_pos h1]
      by_cases h2 : (find data delim).isSome = true
      · rw [if_pos h2]; exact ⟨[], rfl, by simp⟩
      · rw [if_neg h2]
        by_cases h3 : c.length = 0
        · rw [if_pos h3]
          refine ⟨[c], rfl, ?_⟩
          have : c = [] := List.length_eq_zero.1 h3
          simp [this]
        · rw [if_neg h3]
          obtain ⟨taken, e1, e2⟩ := ih (data ++ c)
          refine ⟨c :: taken, ?_, ?_⟩
          · rw [List.cons_append, ← e1]
          · rw [e2]; simp
    · rw [if_neg h1]; exact ⟨[], rfl, by simp⟩

/-- A successful `read_until` has the delimiter in its data, below the cap. -/
theorem read_until_true (delim : List Char) (max_bytes : Nat) :
    ∀ (chunks : List (List Char)) (data : List Char),
      (read_until chunks data delim max_bytes).1 = true →
      (find (read_until chunks data delim max_bytes).2.1 delim).isSome = true
      ∧ (read_until chunks data delim max_bytes).2.1.length < max_bytes := by
  intro chunks
  induction chunks with
  | nil =>
    intro data h
    unfold read_until at h ⊢
    by_cases h1 : data.length < max_bytes
    · rw [if_pos h1] at h ⊢
      by_cases h2 : (find data delim).isSome = true
      · rw [if_pos h2]; exact ⟨h2, h1⟩
      · rw [if_neg h2] at h; cases h
    · rw [if_neg h1] at h; cases h
  | cons c rest ih =>
    intro data h
    unfold read_until at h ⊢
    by_cases h1 : data.length < max_bytes
    · rw [if_pos h1] at h ⊢
      by_cases h2 : (find data delim).isSome = true
      · rw [if_pos h2]; exact ⟨h2, h1⟩
      · rw [if_neg h2] at h ⊢
        by_cases h3 : c.length = 0
        · rw [if_pos h3] at h; cases h
        · rw [if_neg h3] at h ⊢
          exact ih (data ++ c) h
    · rw [if_neg h1] at h; cases h

/-- With chunks of at most 4096 bytes the data never exceeds the cap by 4096. -/
theorem read_until_bound (delim : List Char) (max_bytes : Nat) :
    ∀ (chunks : List (List Char)) (data : List Char),
      (∀ c ∈ chunks, c.length ≤ 4096) → data.length < max_bytes + 4096 →
      (read_until chunks data delim max_bytes).2.1.length < max_bytes + 4096 := by
  intro chunks
  induction chunks with
  | nil =>
    intro data _ hd
    unfold read_until
    split <;> [split; skip] <;> exact hd
  | cons c rest ih =>
    intro data hc hd
    unfold read_until
    by_cases h1 : data.length < max_bytes
    · rw [if_pos h1]
      by_cases h2 : (find data delim).isSome = true
      · rw [if_pos h2]; exact hd
      · rw [if_neg h2]
        by_cases h3 : c.length = 0
        · rw [if_pos h3]; exact hd
        · rw [if_neg h3]
          refine ih (data ++ c) (fun x hx => hc x (List.mem_cons_of_mem _ hx)) ?_
          have := hc c (List.mem_cons_self _ _)
          rw [List.length_append]; omega
    · rw [if_neg h1]; exact hd

/-- After a successful header read the accept-loop iteration sends a response. -/
theorem serve_one_isSome (html store : List Char) (chunks : List (List Char))
    (h : (read_until chunks [] "\r\n\r\n".toList (2 ^ 20)).1 = true) :
    (serve_one html store chunks).1.isSome = true := by
  have hf := (read_until_true "\r\n\r\n".toList (2 ^ 20) chunks [] h).1
  unfold serve_one
  rcases hr : read_until chunks [] "\r\n\r\n".toList (2 ^ 20) with ⟨b, d, r⟩
  rw [hr] at h hf
  simp only at h hf
  subst h
  simp only
  cases hfd : find d "\r\n\r\n".toList with
  | none => rw [hfd] at hf; cases hf
  | some hdr_end => rfl

/-- C11. For every sequence of chunks of at most 4096 bytes each, followed by the
end of the stream, `read_until` with delimiter `delim` and cap `max_bytes` returns
true only if the accumulated data contains the delimiter; it returns false when the
whole stream ends without the delimiter and when the accumulated data has reached
`max_bytes`; the accumulated data is the initial data followed by the consumed
chunks and stays below `max_bytes + 4096`. Consequently, whenever the server goes on
to parse a request, `\r\n\r\n` is found in the data at some `hdr_end`, the split at
`hdr_end` and `hdr_end + 4` stays within the data, and a response is sent. -/
theorem read_until_spec (chunks : List (List Char)) (data delim : List Char) (max_bytes : Nat)
    (hc : ∀ c ∈ chunks, c.length ≤ 4096) :
    ((read_until chunks data delim max_bytes).1 = true →
      delim <:+: (read_until chunks data delim max_bytes).2.1)
    ∧ (¬ delim <:+: (data ++ chunks.flatten) →
      (read_until chunks data delim max_bytes).1 = false)
    ∧ (max_bytes ≤ (read_until chunks data delim max_bytes).2.1.length →
      (read_until chunks data delim max_bytes).1 = false)
    ∧ (∃ taken, chunks = taken ++ (read_until chunks data delim max_bytes).2.2
      ∧ (read_until chunks data delim max_bytes).2.1 = data ++ taken.flatten)
    ∧ (data.length < max_bytes + 4096 →
      (read_until chunks data delim max_bytes).2.1.length < max_bytes + 4096)
    ∧ ((read_until chunks [] "\r\n\r\n".toList (2 ^ 20)).1 = true →
      (∃ hdr_end,
        find (read_until chunks [] "\r\n\r\n".toList (2 ^ 20)).2.1 "\r\n\r\n".toList
          = some hdr_end
        ∧ hdr_end + 4 ≤ (read_until chunks [] "\r\n\r\n".toList (2 ^ 20)).2.1.length
        ∧ (read_until chunks [] "\r\n\r\n".toList (2 ^ 20)).2.1
          = substr (read_until chunks [] "\r\n\r\n".toList (2 ^ 20)).2.1 0 hdr_end
            ++ "\r\n\r\n".toList
            ++ (read_until chunks [] "\r\n\r\n".toList (2 ^ 20)).2.1.drop (hdr_end + 4))
      ∧ ∀ html store, (serve_one html store chunks).1.isSome = true) := by
  have htrue : (read_until chunks data delim max_bytes).1 = true →
      delim <:+: (read_until chunks data delim max_bytes).2.1 := fun h =>
    (find_isSome_iff _ _).1 (read_until_true delim max_bytes chunks data h).1
  refine ⟨htrue, fun hno => ?_, fun hmax => ?_, read_until_accumulates delim max_bytes chunks data,
    read_until_bound delim max_bytes chunks data hc, fun hs => ⟨?_, fun html store =>
      serve_one_isSome html store chunks hs⟩⟩
  · cases hb : (read_until chunks data delim max_bytes).1 with
    | false => rfl
    | true =>
      exfalso
      apply hno
      obtain ⟨taken, e1, e2⟩ := read_until_accumulates delim max_bytes chunks data
      have hin := htrue hb
      rw [e2] at hin
      have hpre : (data ++ taken.flatten) <+: (data ++ chunks.flatten) := by
        refine ⟨(read_until chunks data delim max_bytes).2.2.flatten, ?_⟩
        rw [List.append_assoc, ← List.flatten_append, ← e1]
      exact hin.trans hpre.isInfix
  · cases hb : (read_until chunks data delim max_bytes).1 with
    | false => rfl
    | true =>
      have := (read_until_true delim max_bytes chunks data hb).2
      omega
  · have hf := (read_until_true "\r\n\r\n".toList (2 ^ 20) chunks [] hs).1
    cases hfd : find (read_until chunks [] "\r\n\r\n".toList (2 ^ 20)).2.1 "\r\n\r\n".toList with
    | none => rw [hfd] at hf; cases hf
    | some hdr_end =>
      obtain ⟨h1, h2⟩ := find_some_split _ _ _ hfd
      exact ⟨hdr_end, rfl, h1, h2⟩

/-- Witness for `read_until_spec`: a request delivered in two chunks. -/
theorem read_until_spec_witness :
    "\r\n\r\n".toList <:+:
      (read_until ["GET / HTTP/1.1\r\nHo".toList, "st: c\r\n\r\nrest".toList] []
        "\r\n\r\n".toList (2 ^ 20)).2.1 :=
  (read_until_spec ["GET / HTTP/1.1\r\nHo".toList, "st: c\r\n\r\nrest".toList] []
    "\r\n\r\n".toList (2 ^ 20) (by decide)).1 (by decide)

/-! ## The client-side status decoding -/

theorem digitChar_lt_ten (k : Nat) (h : k < 10) :
    Nat.digitChar k ∈ "0123456789".toList ∧ (Nat.digitChar k).toNat - 48 = k := by
  interval_cases k <;> exact ⟨by decide, by decide⟩

theorem digits_value_append (pre : List Char) (d : Char) :
    digits_value (pre ++ [d]) = 10 * digits_value pre + (d.toNat - 48) := by
  unfold digits_value
  rw [List.foldl_append]
  rfl

/-- The digits that `Nat.toDigitsCore` puts in front of `ds` are decimal digits with
the value `n`. -/
theorem toDigitsCore_spec (fuel : Nat) :
    ∀ (n : Nat) (ds : List Char), n < fuel →
      ∃ pre, Nat.toDigitsCore 10 fuel n ds = pre ++ ds ∧ pre ≠ []
        ∧ (∀ c ∈ pre, c ∈ "0123456789".toList) ∧ digits_value pre = n := by
  induction fuel with
  | zero => intro n ds h; omega
  | succ fuel ih =>
    intro n ds h
    obtain ⟨hd1, hd2⟩ := digitChar_lt_ten (n % 10) (Nat.mod_lt _ (by decide))
    rw [Nat.toDigitsCore]
    by_cases h0 : n / 10 = 0
    · simp only [h0, if_true]
      refine ⟨[Nat.digitChar (n % 10)], rfl, by simp, ?_, ?_⟩
      · intro c hc
        rw [List.mem_singleton.1 hc]; exact hd1
      · have := digits_value_append [] (Nat.digitChar (n % 10))
        rw [List.nil_append] at this
        rw [this, hd2]
        have : digits_value [] = 0 := rfl
        rw [this]
        omega
    · simp only [h0, if_false]
      obtain ⟨pre, e, _, hall, hv⟩ := ih (n / 10) (Nat.digitChar (n % 10) :: ds) (by omega)
      refine ⟨pre ++ [Nat.digitChar (n % 10)], ?_, by simp, ?_, ?_⟩
      · rw [e]; simp
      · intro c hc
        rcases List.mem_append.1 hc with k | k
        · exact hall c k
        · rw [List.mem_singleton.1 k]; exact hd1
      · rw [digits_value_append, hv, hd2]
        omega

/-- The decimal text of a natural number: non-empty, made of digits, with its value. -/
theorem repr_spec (n : Nat) :
    (Nat.repr n).toList ≠ [] ∧ (∀ c ∈ (Nat.repr n).toList, c ∈ "0123456789".toList)
      ∧ digits_value (Nat.repr n).toList = n := by
  obtain ⟨pre, e, h1, h2, h3⟩ := toDigitsCore_spec (n + 1) n [] (by omega)
  have : (Nat.repr n).toList = pre := by
    show Nat.toDigitsCore 10 (n + 1) n [] = pre
    rw [e, List.append_nil]
  rw [this]
  exact ⟨h1, h2, h3⟩

theorem digit_facts :
    ∀ c ∈ "0123456789".toList,
      isspace c = false ∧ c ≠ '-' ∧ c ≠ '+' ∧ c.isDigit = true := by
  decide

/-- The `atoll` value of an optional minus sign, digits, and a space. -/
theorem atoll_digits (neg : Bool) (pre r : List Char) (hne : pre ≠ [])
    (hd : ∀ c ∈ pre, c ∈ "0123456789".toList)
    (hlo : -(2 ^ 63) ≤ (if neg then -(digits_value pre : Int) else (digits_value pre : Int)))
    (hhi : (if neg then -(digits_value pre : Int) else (digits_value pre : Int)) ≤ 2 ^ 63 - 1) :
    atoll ((if neg then ['-'] else []) ++ pre ++ ' ' :: r)
      = if neg then -(digits_value pre : Int) else (digits_value pre : Int) := by
  obtain ⟨p, ps, rfl⟩ := List.exists_cons_of_ne_nil hne
  obtain ⟨hp1, hp2, hp3, _⟩ := digit_facts p (hd p (List.mem_cons_self _ _))
  have htw : List.takeWhile Char.isDigit (p :: ps ++ ' ' :: r) = p :: ps := by
    rw [List.takeWhile_append_of_pos (fun c hc => (digit_facts c (hd c hc)).2.2.2),
      List.takeWhile_cons_of_neg (by decide), List.append_nil]
  unfold atoll
  cases neg with
  | false =>
    simp only [Bool.false_eq_true, if_false] at hlo hhi ⊢
    have hdw : List.dropWhile isspace ([] ++ (p :: ps) ++ ' ' :: r) = p :: ps ++ ' ' :: r := by
      rw [List.nil_append, List.cons_append, List.dropWhile_cons_of_neg (by simp [hp1])]
    rw [hdw]
    have h1 : ((p :: ps ++ ' ' :: r).head? == some '-') = false := by
      simp [hp2]
    have h2 : ((p :: ps ++ ' ' :: r).head? == some '+') = false := by
      simp [hp3]
    simp only [h1, h2, Bool.or_self, Bool.false_eq_true, if_false, htw]
    rw [if_neg (by omega), if_neg (by omega)]
  | true =>
    simp only [if_true] at hlo hhi ⊢
    have hdw : List.dropWhile isspace (['-'] ++ (p :: ps) ++ ' ' :: r)
        = '-' :: (p :: ps ++ ' ' :: r) := by
      show List.dropWhile isspace ('-' :: (p :: ps ++ ' ' :: r)) = _
      rw [List.dropWhile_cons_of_neg (by decide)]
    rw [hdw]
    have h1 : (('-' :: (p :: ps ++ ' ' :: r)).head? == some '-') = true := by rfl
    have hdrop : List.drop 1 ('-' :: (p :: ps ++ ' ' :: r)) = p :: ps ++ ' ' :: r := rfl
    simp only [h1, Bool.true_or, if_true, hdrop, htw]
    rw [if_neg (by omega), if_neg (by omega)]

/-- The `atoi` value of the decimal text of an `int`, followed by a space. -/
theorem atoi_int_to_string (c : Int) (r : List Char) (hlo : -(2 ^ 31) ≤ c) (hhi : c < 2 ^ 31) :
    atoi (int_to_string c ++ ' ' :: r) = c := by
  have hv : atoll (int_to_string c ++ ' ' :: r) = c := by
    unfold int_to_string
    by_cases hneg : c < 0
    · rw [if_pos hneg]
      obtain ⟨h1, h2, h3⟩ := repr_spec c.natAbs
      have := atoll_digits true (Nat.repr c.natAbs).toList r h1 h2
        (by simp only [if_true]; rw [h3]; omega) (by simp only [if_true]; rw [h3]; omega)
      simp only [if_true] at this
      rw [h3] at this
      have e : (['-'] ++ (Nat.repr c.natAbs).toList ++ ' ' :: r)
          = ('-' :: (Nat.repr c.natAbs).toList ++ ' ' :: r) := rfl
      rw [← e, this]
      omega
    · rw [if_neg hneg]
      obtain ⟨h1, h2, h3⟩ := repr_spec c.toNat
      have := atoll_digits false (Nat.repr c.toNat).toList r h1 h2
        (by simp only [Bool.false_eq_true, if_false]; rw [h3]; omega)
        (by simp only [Bool.false_eq_true, if_false]; rw [h3]; omega)
      simp only [Bool.false_eq_true, if_false] at this
      rw [h3] at this
      rw [List.nil_append] at this
      rw [this]
      omega
  unfold atoi
  rw [hv]
  omega

/-- The bytes of a response start with the status line `HTTP/1.1 <code> `. -/
theorem http_response_head (code : Int) (content_type body : List Char) :
    ∃ tail, http_response code content_type body
        = "HTTP/1.1".toList ++ ' ' :: (int_to_string code ++ ' ' :: tail)
      ∧ 2 ≤ tail.length := by
  unfold http_response
  simp only [List.append_assoc]
  refine ⟨_, rfl, ?_⟩
  have e : ∀ l : List Char, ([] : List Char).append l = l := fun _ => rfl
  rw [e, List.length_append, List.length_append]
  have : ("\r\n".toList).length = 2 := rfl
  omega

theorem int_to_string_ne_nil (c : Int) : int_to_string c ≠ [] := by
  unfold int_to_string
  split
  · simp
  · exact (repr_spec c.toNat).1

/-- C12. For every `int` status code, content type and body, the status decoding of
`http_post_json` applied to the bytes of `http_response` yields the code, whether the
code is one the client knows or not; applied to a response that does not begin with
`HTTP/`, the empty response included, it yields 0. -/
theorem decode_status_spec (code : Int) (content_type body : List Char)
    (hlo : -(2 ^ 31) ≤ code) (hhi : code < 2 ^ 31) :
    decode_status (http_response code content_type body) = code
    ∧ (∀ resp, ¬ "HTTP/".toList <+: resp → decode_status resp = 0)
    ∧ decode_status [] = 0 := by
  refine ⟨?_, fun resp h => ?_, rfl⟩
  · obtain ⟨tail, e, hl⟩ := http_response_head code content_type body
    rw [e]
    unfold decode_status
    have hpre : "HTTP/".toList.isPrefixOf
        ("HTTP/1.1".toList ++ ' ' :: (int_to_string code ++ ' ' :: tail)) = true :=
      List.isPrefixOf_iff_prefix.2
        ⟨"1.1".toList ++ ' ' :: (int_to_string code ++ ' ' :: tail), rfl⟩
    rw [if_pos hpre, find_char ' ' "HTTP/1.1".toList _ (by decide)]
    have hlen : ("HTTP/1.1".toList ++ ' ' :: (int_to_string code ++ ' ' :: tail)).length
        = 8 + (1 + ((int_to_string code).length + (1 + tail.length))) := by
      simp only [List.length_append, List.length_cons]
      have : "HTTP/1.1".toList.length = 8 := rfl
      omega
    have hpos : 0 < (int_to_string code).length :=
      List.length_pos.2 (int_to_string_ne_nil code)
    have hdrop : List.drop ("HTTP/1.1".toList.length + 1)
        ("HTTP/1.1".toList ++ ' ' :: (int_to_string code ++ ' ' :: tail))
        = int_to_string code ++ ' ' :: tail := rfl
    simp only
    rw [if_pos (by rw [hlen]; show 8 + 4 < _; omega), hdrop]
    exact atoi_int_to_string code tail hlo hhi
  · unfold decode_status
    rw [if_neg (fun k => h (List.isPrefixOf_iff_prefix.1 k))]

/-- Witness for `decode_status_spec`: a code that the client does not know. -/
theorem decode_status_spec_witness :
    decode_status (http_response 503 "text/plain".toList "busy".toList) = 503 :=
  (decode_status_spec 503 "text/plain".toList "busy".toList (by decide) (by decide)).1

end AssetInventory
